import Mathlib

/-!
# torch_xla IR node (`torch_xla/csrc/ir.cpp`): hashes, shape cache, outputs, sharding

A shallow embedding of `XlaNode` as found in `src/torch_xla/csrc/ir.cpp`.

* Hash values (`torch::lazy::hash_t`, an unsigned 128-bit integer) are natural numbers.
* The hashing primitives of the `torch::lazy` library (`HashCombine`, `Hash`, `HashBlock`,
  `kNullOpt`, `OpKind::hash`) and `xla::Shape::ToString` are not part of the file; every
  definition takes them as a parameter, bundled in `HashLib`.  `torchHashLib` is the
  instance with the arithmetic of `torch::lazy::HashCombine`.
* Shape functions (`std::function<xla::Shape()>`) may have effects; they are state
  transformers `σ → XlaShape × σ` over an arbitrary outside state `σ`, so that "the closure
  was invoked" is observable.
* The process-wide shape cache is passed explicitly, and so is the lowering context that
  `ReturnOp` and `ReturnOps` register values in.
* A call that throws (`XLA_CHECK_EQ`, `XLA_ERROR`) or leaves defined behaviour (an index
  past the end of a vector) ends in a `Failure`.
-/

namespace TorchXla

/-! ## Library types -/

/-- The type `torch::lazy::hash_t`. -/
abbrev hash_t := Nat

/-- The operation identifier `torch::lazy::OpKind` (an interned symbol). -/
structure OpKind where
  op : Nat
deriving DecidableEq, Repr

/-- The hashing primitives `ir.cpp` calls but does not define. -/
structure HashLib where
  /-- The function `torch::lazy::HashCombine(a, b)`. -/
  HashCombine : hash_t → hash_t → hash_t
  /-- The function `torch::lazy::Hash` on a `std::string`. -/
  Hash : String → hash_t
  /-- The function `torch::lazy::HashBlock(data, size_in_bytes, seed)` on a block of `int64_t`. -/
  HashBlock : List Int → Nat → hash_t → hash_t
  /-- The constant `torch::lazy::kNullOpt`, an `int64_t`. -/
  kNullOpt : Int
  /-- The method `OpKind::hash()`. -/
  opHash : OpKind → hash_t

/-- The conversion `static_cast<uint64_t>(v)` of a signed 64-bit value. -/
def toUInt64 (v : Int) : Nat := (v % (2 ^ 64 : Int)).toNat

/-- The conversion `(uint32_t) v` of an integer value. -/
def toUInt32 (v : Int) : Nat := (v % (2 ^ 32 : Int)).toNat

/-- The logical shape `torch::lazy::Shape`; `scalar_type = none` is the undefined type. -/
structure Shape where
  scalar_type : Option Nat
  sizes : List Int
deriving DecidableEq, Repr

/-- The default-constructed `torch::lazy::Shape()`. -/
def Shape.empty : Shape := ⟨none, []⟩

/-- The physical shape `xla::Shape`: an array shape or a tuple of shapes. -/
inductive XlaShape where
  | array (element_type : Nat) (dimensions : List Int) (dynamic_dimensions : List Bool)
  | tuple (tuple_shapes : List XlaShape)
deriving Repr

/-- The default-constructed `xla::Shape()`: invalid element type, no dimensions. -/
def XlaShape.empty : XlaShape := .array 0 [] []

/-- The method `xla::Shape::IsTuple`. -/
def XlaShape.IsTuple : XlaShape → Bool
  | .tuple _ => true
  | .array _ _ _ => false

/-- The components a tuple shape holds (none for an array shape). -/
def XlaShape.components : XlaShape → List XlaShape
  | .tuple ts => ts
  | .array _ _ _ => []

/-- A non-null `torch::lazy::Value`: the node referred to, the output slot, and the value
its `hash()` returns. -/
structure NodeRef where
  node : Nat
  index : Nat
  hash : hash_t
deriving DecidableEq, Repr

/-- An operand, `torch::lazy::Value`: `none` is the null operand (`!operand`). -/
abbrev Value := Option NodeRef

/-- The operand list `torch::lazy::OpList`. -/
abbrev OpList := List Value

/-- The message `xla::ShapeProto` (tile shape of a sharding). -/
structure ShapeProto where
  element_type : Int
  dimensions : List Int
  is_dynamic_dimension : List Bool
  layout : List Int
deriving DecidableEq, Repr

/-- The message `xla::OpSharding`. -/
structure OpSharding where
  type : Int
  tile_shape : ShapeProto
  tile_assignment_dimensions : List Int
  tile_assignment_devices : List Int
  replicate_on_last_tile_dim : Bool
  last_tile_dims : List Int
deriving DecidableEq, Repr

/-! ## `GetOperandHashes` (ir.cpp 30-42) -/

/-- The body of the `for` loop of `GetOperandHashes`: one operand folded into `hash`. -/
def GetOperandHashes.step (L : HashLib) (hash : hash_t) (operand : Value) : hash_t :=
  match operand with
  | none => L.HashCombine hash (toUInt64 L.kNullOpt)
  | some o => L.HashCombine hash o.hash

/-- The loop of `GetOperandHashes` over the remaining operands, `hash` being the local. -/
def GetOperandHashes.loop (L : HashLib) : OpList → hash_t → hash_t
  | [], hash => hash
  | operand :: rest, hash => GetOperandHashes.loop L rest (GetOperandHashes.step L hash operand)

/-- The function `GetOperandHashes(operands, node_hash)`. -/
def GetOperandHashes (L : HashLib) (operands : OpList) (node_hash : hash_t) : hash_t :=
  GetOperandHashes.loop L operands node_hash

/-! ## The node -/

/-- The state of an `XlaNode`: the fields of the `torch::lazy::Node` base that the
constructors pass on, followed by the members of `XlaNode` itself. -/
structure XlaNode where
  op : OpKind
  operands : OpList
  shapes : List Shape
  num_outputs : Nat
  xla_shape_ : XlaShape
  node_hash_ : hash_t
  dag_hash_ : hash_t
  sharding_hash_ : hash_t
  output_shardings_ : List (Option OpSharding)
  custom_op_name_ : String
  unbounded_dynamic_dims_ : List Nat

/-- Modelled from the spec: `XlaNode::hash()` is declared in `ir.h`, which is not among the
sources; the spec has the shape cache keyed by the node's `dag_hash`. -/
def XlaNode.hash (n : XlaNode) : hash_t := n.dag_hash_

/-- Modelled from the spec: `XlaNode::shapeHash()` is declared in `ir.h`; the key under which
the base class resolves a logical shape is the node's `dag_hash` as well. -/
def XlaNode.shapeHash (n : XlaNode) : hash_t := n.dag_hash_

/-- The static method `XlaNode::GetOpHash(op, shape, hash_seed)` (ir.cpp 146-152);
`toStr` is `xla::Shape::ToString`. -/
def XlaNode.GetOpHash (L : HashLib) (toStr : XlaShape → String) (op : OpKind)
    (shape : XlaShape) (hash_seed : hash_t) : hash_t :=
  let h := L.HashCombine (L.opHash op) (L.Hash (toStr shape))
  L.HashCombine h hash_seed

/-! ## The shape cache (ir.cpp 20-28) -/

/-- Modelled from the spec: the class `runtime::util::Cache`
(`torch_xla/csrc/runtime/cache.h`) behind `ShapeCache` is not among the sources.  The spec
describes a bounded associative store from structural hash to shape descriptor whose
capacity is fixed at creation, with get and insert, evicting by the underlying policy
(least recently used) when the capacity is exceeded.  Entries are listed most recently
used first. -/
structure ShapeCache where
  max_size_ : Nat
  element_list_ : List (hash_t × XlaShape)

/-- The shape stored under `key` in a list of entries, if any. -/
def ShapeCache.lookup : List (hash_t × XlaShape) → hash_t → Option XlaShape
  | [], _ => none
  | (k, v) :: rest, key => if k = key then some v else ShapeCache.lookup rest key

/-- The entries without the first one stored under `key`. -/
def ShapeCache.eraseKey : List (hash_t × XlaShape) → hash_t → List (hash_t × XlaShape)
  | [], _ => []
  | (k, v) :: rest, key => if k = key then rest else (k, v) :: ShapeCache.eraseKey rest key

/-- Modelled from the spec: `Cache::Get(key)`, the store's lookup.  A hit returns the stored
shape and marks the entry most recently used; a miss returns `none` (`nullptr`). -/
def ShapeCache.Get (c : ShapeCache) (key : hash_t) : Option XlaShape × ShapeCache :=
  match ShapeCache.lookup c.element_list_ key with
  | none => (none, c)
  | some v =>
    (some v, { c with element_list_ := (key, v) :: ShapeCache.eraseKey c.element_list_ key })

/-- Modelled from the spec: `Cache::Add(key, object)`, the store's insert.  The object is
stored under `key` (replacing what the key held), the least recently used entry is evicted
if the capacity is exceeded, and the object is returned. -/
def ShapeCache.Add (c : ShapeCache) (key : hash_t) (object : XlaShape) :
    XlaShape × ShapeCache :=
  let l := (key, object) :: ShapeCache.eraseKey c.element_list_ key
  (object, { c with element_list_ := if c.max_size_ < l.length then l.dropLast else l })

/-- Modelled from the spec: `GetShapeCache()` creates the process-wide cache on first use with
the capacity read from `XLA_IR_SHAPE_CACHE_SIZE` (default 12288); `size` is that value. -/
def GetShapeCache (size : Nat) : ShapeCache := ⟨size, []⟩

/-- Whether `key` currently has an entry. -/
def ShapeCache.contains (c : ShapeCache) (key : hash_t) : Bool :=
  (ShapeCache.lookup c.element_list_ key).isSome

/-- Everything outside the node that a shape resolution can touch: the process-wide shape
cache and the state `σ` the shape closures act on. -/
structure World (σ : Type) where
  cache : ShapeCache
  env : σ

/-- A shape-computing closure `std::function<xla::Shape()>`. -/
abbrev XlaShapeFn (σ : Type) := σ → XlaShape × σ

/-- A shape-computing closure `std::function<torch::lazy::Shape()>`. -/
abbrev ShapeFn (σ : Type) := σ → Shape × σ

/-- The method `XlaNode::GetOpShape(shape_fn)` (ir.cpp 164-172). -/
def XlaNode.GetOpShape {σ : Type} (n : XlaNode) (shape_fn : XlaShapeFn σ) (w : World σ) :
    XlaShape × World σ :=
  match w.cache.Get n.hash with
  | (some shape, cache1) => (shape, { w with cache := cache1 })
  | (none, cache1) =>
    let computed := shape_fn w.env
    let added := cache1.Add n.hash computed.1
    (added.1, { cache := added.2, env := computed.2 })

/-- A run of further resolutions `GetOpShape`, each by some node with some closure, in
order; the world after the last one. -/
def resolveAll {σ : Type} : List (XlaNode × XlaShapeFn σ) → World σ → World σ
  | [], w => w
  | (n, f) :: rest, w => resolveAll rest (n.GetOpShape f w).2

/-- No eviction of `key` during a run of resolutions: the key has an entry before the run
and after each of its resolutions. -/
def keptDuring {σ : Type} (key : hash_t) : List (XlaNode × XlaShapeFn σ) → World σ → Bool
  | [], w => w.cache.contains key
  | (n, f) :: rest, w => w.cache.contains key && keptDuring key rest (n.GetOpShape f w).2

/-! ## Constructors (ir.cpp 46-109) -/

/-- Constructor `XlaNode(op, operands, shapes, xla_shape, num_outputs, hash_seed)`
(ir.cpp 46-52). -/
def XlaNode.ofShapes (L : HashLib) (op : OpKind) (operands : OpList) (shapes : List Shape)
    (xla_shape : XlaShape) (num_outputs : Nat) (hash_seed : hash_t) : XlaNode :=
  let node_hash := L.HashCombine (L.opHash op) hash_seed
  { op := op, operands := operands, shapes := shapes, num_outputs := num_outputs,
    xla_shape_ := xla_shape,
    node_hash_ := node_hash,
    dag_hash_ := GetOperandHashes L operands node_hash,
    sharding_hash_ := 0, output_shardings_ := [], custom_op_name_ := "",
    unbounded_dynamic_dims_ := [] }

/-- Constructor `XlaNode(op, operands, shapes, xla_shape_fn, num_outputs, hash_seed)`
(ir.cpp 54-62): the members are initialised, then the body resolves the physical shape. -/
def XlaNode.ofShapesFn {σ : Type} (L : HashLib) (op : OpKind) (operands : OpList)
    (shapes : List Shape) (xla_shape_fn : XlaShapeFn σ) (num_outputs : Nat)
    (hash_seed : hash_t) (w : World σ) : XlaNode × World σ :=
  let node_hash := L.HashCombine (L.opHash op) hash_seed
  let this : XlaNode :=
    { op := op, operands := operands, shapes := shapes, num_outputs := num_outputs,
      xla_shape_ := XlaShape.empty,
      node_hash_ := node_hash,
      dag_hash_ := GetOperandHashes L operands node_hash,
      sharding_hash_ := 0, output_shardings_ := [], custom_op_name_ := "",
      unbounded_dynamic_dims_ := [] }
  let r := this.GetOpShape xla_shape_fn w
  ({ this with xla_shape_ := r.1 }, r.2)

/-- Constructor `XlaNode(op, operands, shape, xla_shape, num_outputs, hash_seed)`
(ir.cpp 64-71). -/
def XlaNode.ofShape (L : HashLib) (op : OpKind) (operands : OpList) (shape : Shape)
    (xla_shape : XlaShape) (num_outputs : Nat) (hash_seed : hash_t) : XlaNode :=
  let node_hash := L.HashCombine (L.opHash op) hash_seed
  { op := op, operands := operands, shapes := [shape], num_outputs := num_outputs,
    xla_shape_ := xla_shape,
    node_hash_ := node_hash,
    dag_hash_ := GetOperandHashes L operands node_hash,
    sharding_hash_ := 0, output_shardings_ := [], custom_op_name_ := "",
    unbounded_dynamic_dims_ := [] }

/-- Constructor `XlaNode(op, operands, xla_shape, num_outputs, hash_seed)` (ir.cpp 73-77),
which delegates with an empty list of logical shapes. -/
def XlaNode.ofXlaShape (L : HashLib) (op : OpKind) (operands : OpList) (xla_shape : XlaShape)
    (num_outputs : Nat) (hash_seed : hash_t) : XlaNode :=
  XlaNode.ofShapes L op operands [] xla_shape num_outputs hash_seed

/-- The base-class method `torch::lazy::Node::addComputedShape(shape_fn)`: the shape that
`computeShape` resolves under the node's `shapeHash()` is appended to the logical shapes.
`computeShape` belongs to the `torch::lazy` library and is a parameter. -/
def XlaNode.addComputedShape {σ : Type} (computeShape : hash_t → ShapeFn σ → ShapeFn σ)
    (n : XlaNode) (shape_fn : ShapeFn σ) (w : World σ) : XlaNode × World σ :=
  let r := computeShape n.shapeHash shape_fn w.env
  ({ n with shapes := n.shapes ++ [r.1] }, { w with env := r.2 })

/-- Constructor `XlaNode(op, operands, shape_fn, xla_shape_fn, num_outputs, hash_seed)`
(ir.cpp 79-88): delegate with the empty physical shape, attach the logical shape, then
resolve the physical shape. -/
def XlaNode.ofShapeFnXlaShapeFn {σ : Type} (L : HashLib)
    (computeShape : hash_t → ShapeFn σ → ShapeFn σ) (op : OpKind) (operands : OpList)
    (shape_fn : ShapeFn σ) (xla_shape_fn : XlaShapeFn σ) (num_outputs : Nat)
    (hash_seed : hash_t) (w : World σ) : XlaNode × World σ :=
  let this := XlaNode.ofXlaShape L op operands XlaShape.empty num_outputs hash_seed
  let a := this.addComputedShape computeShape shape_fn w
  let r := a.1.GetOpShape xla_shape_fn a.2
  ({ a.1 with xla_shape_ := r.1 }, r.2)

/-- Constructor `XlaNode(op, operands, xla_shape_fn, num_outputs, hash_seed)`
(ir.cpp 90-97): delegate with the empty physical shape, then resolve the physical shape. -/
def XlaNode.ofXlaShapeFn {σ : Type} (L : HashLib) (op : OpKind) (operands : OpList)
    (xla_shape_fn : XlaShapeFn σ) (num_outputs : Nat) (hash_seed : hash_t) (w : World σ) :
    XlaNode × World σ :=
  let this := XlaNode.ofXlaShape L op operands XlaShape.empty num_outputs hash_seed
  let r := this.GetOpShape xla_shape_fn w
  ({ this with xla_shape_ := r.1 }, r.2)

/-- Constructor `XlaNode(op, shape, xla_shape, num_outputs, hash_seed)` (ir.cpp 99-105),
the one without operands. -/
def XlaNode.leafOfShape (L : HashLib) (toStr : XlaShape → String) (op : OpKind)
    (shape : Shape) (xla_shape : XlaShape) (num_outputs : Nat) (hash_seed : hash_t) :
    XlaNode :=
  let node_hash := XlaNode.GetOpHash L toStr op xla_shape hash_seed
  { op := op, operands := [], shapes := [shape], num_outputs := num_outputs,
    xla_shape_ := xla_shape,
    node_hash_ := node_hash,
    dag_hash_ := node_hash,
    sharding_hash_ := 0, output_shardings_ := [], custom_op_name_ := "",
    unbounded_dynamic_dims_ := [] }

/-- Constructor `XlaNode(op, xla_shape, num_outputs, hash_seed)` (ir.cpp 107-109), which
delegates with the default logical shape. -/
def XlaNode.leafOfXlaShape (L : HashLib) (toStr : XlaShape → String) (op : OpKind)
    (xla_shape : XlaShape) (num_outputs : Nat) (hash_seed : hash_t) : XlaNode :=
  XlaNode.leafOfShape L toStr op Shape.empty xla_shape num_outputs hash_seed

/-- The shape information an operand-taking constructor is called with; one case per
overload (ir.cpp 46-97). -/
inductive ShapeArgs (σ : Type) where
  | shapes (shapes : List Shape) (xla_shape : XlaShape)
  | shapesFn (shapes : List Shape) (xla_shape_fn : XlaShapeFn σ)
  | shape (shape : Shape) (xla_shape : XlaShape)
  | xlaShape (xla_shape : XlaShape)
  | shapeFnXlaShapeFn (shape_fn : ShapeFn σ) (xla_shape_fn : XlaShapeFn σ)
  | xlaShapeFn (xla_shape_fn : XlaShapeFn σ)

/-- Overload resolution: the operand-taking constructor selected by the shape arguments. -/
def XlaNode.construct {σ : Type} (L : HashLib) (computeShape : hash_t → ShapeFn σ → ShapeFn σ)
    (op : OpKind) (operands : OpList) (args : ShapeArgs σ) (num_outputs : Nat)
    (hash_seed : hash_t) (w : World σ) : XlaNode × World σ :=
  match args with
  | .shapes shapes xla_shape =>
    (XlaNode.ofShapes L op operands shapes xla_shape num_outputs hash_seed, w)
  | .shapesFn shapes xla_shape_fn =>
    XlaNode.ofShapesFn L op operands shapes xla_shape_fn num_outputs hash_seed w
  | .shape shape xla_shape =>
    (XlaNode.ofShape L op operands shape xla_shape num_outputs hash_seed, w)
  | .xlaShape xla_shape =>
    (XlaNode.ofXlaShape L op operands xla_shape num_outputs hash_seed, w)
  | .shapeFnXlaShapeFn shape_fn xla_shape_fn =>
    XlaNode.ofShapeFnXlaShapeFn L computeShape op operands shape_fn xla_shape_fn num_outputs
      hash_seed w
  | .xlaShapeFn xla_shape_fn =>
    XlaNode.ofXlaShapeFn L op operands xla_shape_fn num_outputs hash_seed w

/-! ## Output shape lookup (ir.cpp 113-119) -/

/-- How a call can end without a result. -/
inductive Failure where
  /-- A failed `XLA_CHECK_EQ(lhs, rhs)`: the fatal error. -/
  | checkEq (lhs rhs : Nat)
  /-- An index past the end of `tuple_shapes` or of the sharding vector, outside what the
  container defines. -/
  | outOfRange (index size : Nat)
  /-- The fatal error raised by `XLA_ERROR() << message`. -/
  | fatal (message : String)
deriving DecidableEq, Repr

/-- The method `XlaNode::xla_shape(output_index)`. -/
def XlaNode.xla_shape (n : XlaNode) (output_index : Nat) : Except Failure XlaShape :=
  if n.xla_shape_.IsTuple then
    match n.xla_shape_.components.get? output_index with
    | some s => .ok s
    | none => .error (.outOfRange output_index n.xla_shape_.components.length)
  else if output_index = 0 then .ok n.xla_shape_
  else .error (.checkEq output_index 0)

/-! ## Binding lowered values (ir.cpp 121-136) -/

/-- The handle `xla::XlaOp` of a lowered value. -/
structure XlaOp where
  handle : Nat
deriving DecidableEq, Repr

/-- The result list `XlaOpVector`. -/
abbrev XlaOpVector := List XlaOp

/-- An output slot `torch::lazy::Output`: the node and the index of one of its outputs. -/
structure Output where
  node : XlaNode
  index : Nat

/-- Modelled from the spec: the class `LoweringContext`
(`torch_xla/csrc/lowering_context.h`) is not among the sources.  The spec has the lowering
target record a computed value against a (node, output index) pair; the record is the list
of registrations in the order they were made. -/
structure LoweringContext where
  emitted_outputs_ : List (Output × XlaOp)

/-- Modelled from the spec: `LoweringContext::AssignOutputOp(output, op)` registers `op`
against `output`. -/
def LoweringContext.AssignOutputOp (loctx : LoweringContext) (output : Output) (op : XlaOp) :
    LoweringContext :=
  ⟨loctx.emitted_outputs_ ++ [(output, op)]⟩

/-- The method `XlaNode::ReturnOp(op, loctx)` (ir.cpp 121-125): the result, or the failed
check, together with the lowering context afterwards. -/
def XlaNode.ReturnOp (n : XlaNode) (op : XlaOp) (loctx : LoweringContext) :
    Except Failure XlaOpVector × LoweringContext :=
  if n.num_outputs = 1 then
    (.ok [op], loctx.AssignOutputOp ⟨n, 0⟩ op)
  else
    (.error (.checkEq n.num_outputs 1), loctx)

/-- The `for` loop of `ReturnOps`, at index `i` with `ops[i], ops[i+1], ...` still to visit. -/
def XlaNode.ReturnOps.loop (n : XlaNode) :
    List XlaOp → Nat → XlaOpVector → LoweringContext → XlaOpVector × LoweringContext
  | [], _, result, loctx => (result, loctx)
  | op :: rest, i, result, loctx =>
    XlaNode.ReturnOps.loop n rest (i + 1) (result ++ [op]) (loctx.AssignOutputOp ⟨n, i⟩ op)

/-- The method `XlaNode::ReturnOps(ops, loctx)` (ir.cpp 127-136). -/
def XlaNode.ReturnOps (n : XlaNode) (ops : List XlaOp) (loctx : LoweringContext) :
    Except Failure XlaOpVector × LoweringContext :=
  if n.num_outputs = ops.length then
    let r := XlaNode.ReturnOps.loop n ops 0 [] loctx
    (.ok r.1, r.2)
  else
    (.error (.checkEq n.num_outputs ops.length), loctx)

/-! ## Formatting and the unimplemented capabilities (ir.cpp 138-144, 174-180) -/

/-- The printers `ToString` relies on: `torch::lazy::Node::ToString` of the base class and
the stream output of an `xla::Shape`. -/
structure Printers where
  nodeToString : XlaNode → String
  shapeToString : XlaShape → String

/-- The method `XlaNode::ToString()` (ir.cpp 174-180). -/
def XlaNode.ToString (P : Printers) (n : XlaNode) : String :=
  P.nodeToString n ++ ", xla_shape=" ++ P.shapeToString n.xla_shape_
    ++ ", dynamic_dims: (" ++ String.intercalate ", " (n.unbounded_dynamic_dims_.map toString)
    ++ ")"

/-- The method `XlaNode::Clone(operands)` (ir.cpp 138-140). -/
def XlaNode.Clone (P : Printers) (n : XlaNode) (_operands : OpList) : Except Failure XlaNode :=
  .error (.fatal ("Cloning not implemented for node: " ++ n.ToString P))

/-- The method `XlaNode::Lower(loctx)` (ir.cpp 142-144). -/
def XlaNode.Lower (P : Printers) (n : XlaNode) (loctx : LoweringContext) :
    Except Failure XlaOpVector × LoweringContext :=
  (.error (.fatal ("Lowering not implemented for node: " ++ n.ToString P)), loctx)

/-! ## Sharding (ir.cpp 154-162, 187-235) -/

/-- The conversion `(uint32_t) b` of a `bool`. -/
def boolToUInt32 (b : Bool) : Nat := if b then 1 else 0

/-- The conversion `(uint32_t) i` of a `size_t` loop index. -/
def indexToUInt32 (i : Nat) : Nat := i % 2 ^ 32

/-- A loop `for (x : xs) sharding_hash_ = HashCombine(sharding_hash_, (uint32_t)x)` over
integer values. -/
def UpdateShardingHash.combineInts (L : HashLib) : List Int → hash_t → hash_t
  | [], h => h
  | x :: rest, h => UpdateShardingHash.combineInts L rest (L.HashCombine h (toUInt32 x))

/-- The loop over `is_dynamic_dimension`, whose elements are `bool`. -/
def UpdateShardingHash.combineBools (L : HashLib) : List Bool → hash_t → hash_t
  | [], h => h
  | x :: rest, h => UpdateShardingHash.combineBools L rest (L.HashCombine h (boolToUInt32 x))

/-- The part of the loop body of `UpdateShardingHash` run for a present sharding
(ir.cpp 199-229), `h` being `sharding_hash_`. -/
def UpdateShardingHash.sharding (L : HashLib) (sharding : OpSharding) (h : hash_t) : hash_t :=
  let h := UpdateShardingHash.combineInts L sharding.tile_assignment_dimensions h
  let size_in_bytes := sharding.tile_assignment_devices.length * 8
  let h := L.HashBlock sharding.tile_assignment_devices size_in_bytes h
  let h := UpdateShardingHash.combineInts L sharding.last_tile_dims h
  let h := L.HashCombine h (toUInt32 sharding.type)
  let h := L.HashCombine h (boolToUInt32 sharding.replicate_on_last_tile_dim)
  let shape_proto := sharding.tile_shape
  let h := L.HashCombine h (toUInt32 shape_proto.element_type)
  let h := UpdateShardingHash.combineInts L shape_proto.dimensions h
  UpdateShardingHash.combineBools L shape_proto.is_dynamic_dimension h

/-- The outer loop of `UpdateShardingHash` at index `i`, over the slots from `i` on. -/
def UpdateShardingHash.loop (L : HashLib) : List (Option OpSharding) → Nat → hash_t → hash_t
  | [], _, h => h
  | slot :: rest, i, h =>
    let h := L.HashCombine h (indexToUInt32 i)
    match slot with
    | none => UpdateShardingHash.loop L rest (i + 1) h
    | some sharding =>
      UpdateShardingHash.loop L rest (i + 1) (UpdateShardingHash.sharding L sharding h)

/-- The method `XlaNode::UpdateShardingHash()` (ir.cpp 189-231). -/
def XlaNode.UpdateShardingHash (L : HashLib) (n : XlaNode) : XlaNode :=
  { n with sharding_hash_ := UpdateShardingHash.loop L n.output_shardings_ 0 n.node_hash_ }

/-- The method `XlaNode::SetSharding(sharding, index)` (ir.cpp 154-162).  Writing past the
end of the vector is outside what `std::vector` defines and ends the call with
`outOfRange`. -/
def XlaNode.SetSharding (L : HashLib) (n : XlaNode) (sharding : OpSharding) (index : Nat) :
    Except Failure XlaNode :=
  let output_shardings :=
    if n.output_shardings_.length = 0 then List.replicate n.num_outputs none
    else n.output_shardings_
  if index < output_shardings.length then
    .ok (XlaNode.UpdateShardingHash L
      { n with output_shardings_ := output_shardings.set index (some sharding) })
  else
    .error (.outOfRange index output_shardings.length)

/-- The method `XlaNode::SetCustomOpName(op_name)` (ir.cpp 233-235). -/
def XlaNode.SetCustomOpName (n : XlaNode) (op_name : String) : XlaNode :=
  { n with custom_op_name_ := op_name }

/-- The vector `SetSharding` writes into: `output_shardings_`, or `num_outputs()` null
entries if it is still empty. -/
def XlaNode.initialisedShardings (n : XlaNode) : List (Option OpSharding) :=
  if n.output_shardings_.length = 0 then List.replicate n.num_outputs none
  else n.output_shardings_

/-- The states of `output_shardings_` a node goes through: empty, as the constructors leave
it, or one entry per output, as `SetSharding` leaves it. -/
def XlaNode.shardingWF (n : XlaNode) : Prop :=
  n.output_shardings_ = [] ∨ n.output_shardings_.length = n.num_outputs

instance XlaNode.shardingWF.decidable (n : XlaNode) : Decidable n.shardingWF := by
  unfold XlaNode.shardingWF
  exact inferInstance

/-- A run of `SetSharding` calls, in order. -/
def XlaNode.SetShardings (L : HashLib) : List (OpSharding × Nat) → XlaNode → Except Failure XlaNode
  | [], n => .ok n
  | (sharding, index) :: rest, n =>
    match n.SetSharding L sharding index with
    | .ok n₁ => XlaNode.SetShardings L rest n₁
    | .error e => .error e

/-- The sharding held by output slot `j`: absent when the vector is still empty or the
entry is null. -/
def XlaNode.sharding (n : XlaNode) (j : Nat) : Option OpSharding :=
  (n.output_shardings_[j]?).join

/-- How many calls of a run of `SetSharding` calls take the branch that re-initialises the
vector (`output_shardings_.size() == 0`). -/
def XlaNode.reinitCount (L : HashLib) : List (OpSharding × Nat) → XlaNode → Nat
  | [], _ => 0
  | (sharding, index) :: rest, n =>
    (if n.output_shardings_.length = 0 then 1 else 0) +
      match n.SetSharding L sharding index with
      | .ok n₁ => XlaNode.reinitCount L rest n₁
      | .error _ => 0

/-- One item folded into the sharding hash, in the specification's wording: a value
combined with `HashCombine`, or the device list hashed as one contiguous block. -/
inductive HashInput where
  | value (v : Nat)
  | block (data : List Int) (size_in_bytes : Nat)
deriving DecidableEq, Repr

/-- Folding one item into the running hash. -/
def HashInput.absorb (L : HashLib) (h : hash_t) : HashInput → hash_t
  | .value v => L.HashCombine h v
  | .block data size_in_bytes => L.HashBlock data size_in_bytes h

/-- The specification's list of what a present sharding contributes, in order: each
tile-assignment dimension, the device list as one block, each last-tile-dim flag, the
sharding type, the replicate flag, the tile shape's element type, each tile-shape dimension
and each per-dimension dynamic flag; every value as the 32-bit unsigned number it is
combined as. -/
def specShardingInputs (sharding : OpSharding) : List HashInput :=
  sharding.tile_assignment_dimensions.map (fun d => HashInput.value (toUInt32 d))
    ++ [HashInput.block sharding.tile_assignment_devices
          (sharding.tile_assignment_devices.length * 8)]
    ++ sharding.last_tile_dims.map (fun d => HashInput.value (toUInt32 d))
    ++ [HashInput.value (toUInt32 sharding.type),
        HashInput.value (boolToUInt32 sharding.replicate_on_last_tile_dim),
        HashInput.value (toUInt32 sharding.tile_shape.element_type)]
    ++ sharding.tile_shape.dimensions.map (fun d => HashInput.value (toUInt32 d))
    ++ sharding.tile_shape.is_dynamic_dimension.map (fun b => HashInput.value (boolToUInt32 b))

/-- The specification's contribution of slot `i`: the slot index first, for every slot, then
the sharding's items if the slot holds one. -/
def specSlotInputs (i : Nat) (slot : Option OpSharding) : List HashInput :=
  HashInput.value (indexToUInt32 i) ::
    (match slot with
      | none => []
      | some sharding => specShardingInputs sharding)

/-- The specification's `sharding_hash`: a fold from `node_hash` over all slots in index
order. -/
def specShardingHash (L : HashLib) (node_hash : hash_t) (slots : List (Option OpSharding)) :
    hash_t :=
  ((slots.enum).flatMap (fun p => specSlotInputs p.1 p.2)).foldl (HashInput.absorb L) node_hash

/-! ## Post-construction operations as steps of one node -/

/-- A node together with what its methods act on besides it: the shape cache and closure
state, and the lowering context. -/
structure Machine (σ : Type) where
  node : XlaNode
  world : World σ
  loctx : LoweringContext

/-- The post-construction operations of `ir.cpp`, with their arguments. -/
inductive NodeOp (σ : Type) where
  | SetSharding (sharding : OpSharding) (index : Nat)
  | UpdateShardingHash
  | SetCustomOpName (op_name : String)
  | GetOpShape (shape_fn : XlaShapeFn σ)
  | xla_shape (output_index : Nat)
  | ReturnOp (op : XlaOp)
  | ReturnOps (ops : List XlaOp)
  | ToString

/-- Performing one operation.  The methods declared `const` (`GetOpShape`, `xla_shape`,
`ReturnOp`, `ReturnOps`, `ToString`) act on the cache or the lowering context and leave the
node as it is, whether they return or throw; the only call without a defined state
afterwards is a `SetSharding` past the end of the vector. -/
def NodeOp.apply {σ : Type} (L : HashLib) : NodeOp σ → Machine σ → Except Failure (Machine σ)
  | .SetSharding sharding index, m =>
    match m.node.SetSharding L sharding index with
    | .ok n => .ok { m with node := n }
    | .error e => .error e
  | .UpdateShardingHash, m => .ok { m with node := m.node.UpdateShardingHash L }
  | .SetCustomOpName op_name, m => .ok { m with node := m.node.SetCustomOpName op_name }
  | .GetOpShape shape_fn, m => .ok { m with world := (m.node.GetOpShape shape_fn m.world).2 }
  | .xla_shape _, m => .ok m
  | .ReturnOp op, m => .ok { m with loctx := (m.node.ReturnOp op m.loctx).2 }
  | .ReturnOps ops, m => .ok { m with loctx := (m.node.ReturnOps ops m.loctx).2 }
  | .ToString, m => .ok m

/-- Performing a sequence of operations, in order. -/
def NodeOp.run {σ : Type} (L : HashLib) : List (NodeOp σ) → Machine σ → Except Failure (Machine σ)
  | [], m => .ok m
  | op :: rest, m =>
    match NodeOp.apply L op m with
    | .ok m₁ => NodeOp.run L rest m₁
    | .error e => .error e

/-! ## The `torch::lazy` hash arithmetic -/

/-- The arithmetic of `torch::lazy::HashCombine` on 128-bit values:
`a ^ (b * kb + 0x9e3779b97f4a7c15 + (a << 6) + (a >> 2))` with
`kb = hash_t(101, 0x27d4eb2f165667c5)`. -/
def torchHashCombine (a b : hash_t) : hash_t :=
  a ^^^ ((b * (101 * 2 ^ 64 + 0x27d4eb2f165667c5) + 0x9e3779b97f4a7c15
    + (a <<< 6) % 2 ^ 128 + (a >>> 2)) % 2 ^ 128)

/-- The library instance used for concrete inputs: `HashCombine` and `kNullOpt` as
`torch::lazy` defines them, and `OpKind::hash()` as the hash of the symbol's number, which
is that number.  The string hash and the block hash, which no general statement
inspects, are fixed to simple functions. -/
def torchHashLib : HashLib where
  HashCombine := torchHashCombine
  Hash := fun s => s.length
  HashBlock := fun data _ seed => torchHashCombine seed data.length
  kNullOpt := 0x8655d738f3678dda - 2 ^ 64
  opHash := fun op => op.op

/-! ## The specification's wording of the operand fold -/

/-- The value an operand contributes to `dag_hash`: its own hash if present, the
null-operand sentinel if absent. -/
def operandContribution (L : HashLib) (operand : Value) : hash_t :=
  match operand with
  | some o => o.hash
  | none => toUInt64 L.kNullOpt

/-- The specification's `dag_hash`: the left fold of `HashCombine` over the operands'
contributions, in list order, starting from `node_hash`. -/
def specDagHash (L : HashLib) (node_hash : hash_t) (operands : OpList) : hash_t :=
  (operands.map (operandContribution L)).foldl L.HashCombine node_hash

/-- The pairs `(running hash, contribution)` that `GetOperandHashes` hands to `HashCombine`,
one per operand position. -/
def GetOperandHashes.trace (L : HashLib) : OpList → hash_t → List (hash_t × hash_t)
  | [], _ => []
  | operand :: rest, hash =>
    (hash, operandContribution L operand) ::
      GetOperandHashes.trace L rest (GetOperandHashes.step L hash operand)

/-- A collision of `HashCombine` at one operand position of two runs of `GetOperandHashes`:
different argument pairs with the same combined value. -/
def collidesAt (L : HashLib) (p : (hash_t × hash_t) × (hash_t × hash_t)) : Prop :=
  p.1 ≠ p.2 ∧ L.HashCombine p.1.1 p.1.2 = L.HashCombine p.2.1 p.2.2

instance collidesAt.decidable (L : HashLib) (p : (hash_t × hash_t) × (hash_t × hash_t)) :
    Decidable (collidesAt L p) := by
  unfold collidesAt
  exact inferInstance

/-! ## Concrete inputs -/

/-- A seed under which operation number 11 gets `node_hash = 0` from `torchHashCombine`. -/
def zeroSeed : hash_t := 0xcc242dfcfd668f06306daa26c0185ba4

/-- An operand whose hash `torchHashCombine` sends, from running hash 0, to 0. -/
def operandX : NodeRef := ⟨1, 0, 0xda9f3dc26b64fb9691d69c2f236747ef⟩

/-- An operand with another hash, chosen so that the two orders of `operandX` and
`operandY` combine to the same value. -/
def operandY : NodeRef := ⟨2, 0, 0x27e26422255e2ef47cb15437baafb9fc⟩

/-- An operand whose hash is the value of the null-operand sentinel. -/
def operandN : NodeRef := ⟨3, 0, 0x8655d738f3678dda⟩

/-- An operand whose hash differs from the sentinel, chosen together with `operandQ`. -/
def operandP : NodeRef := ⟨6, 0, 0xcd810c8157a9600c643584fc0e1a2261⟩

/-- An operand chosen so that, for operation 11 and seed 0, folding it after `operandP` and
after an absent operand gives the same value under `torchHashCombine`. -/
def operandQ : NodeRef := ⟨7, 0, 0xc7d000f8d0f724af442eb02b1ab7298f⟩

/-- Two ordinary operands with small hashes. -/
def operandA : NodeRef := ⟨4, 0, 5⟩

/-- The second ordinary operand. -/
def operandB : NodeRef := ⟨5, 1, 7⟩

/-- A shape resolver that always computes: the stand-in for `computeShape` in examples. -/
def computeAlways {σ : Type} : hash_t → ShapeFn σ → ShapeFn σ := fun _ f => f

/-- The operation `add` of the examples (symbol number 11). -/
def opAdd : OpKind := ⟨11⟩

/-- The node `add(A, B)` of the examples. -/
def nodeAdd : XlaNode :=
  XlaNode.ofXlaShape torchHashLib opAdd [some operandA, some operandB] XlaShape.empty 1 0

/-- Another node, `add(B)`, with a different `dag_hash`. -/
def nodeOther : XlaNode :=
  XlaNode.ofXlaShape torchHashLib opAdd [some operandB] XlaShape.empty 1 0

/-- A node with two outputs whose physical shape is the tuple `(f32[2,2], f32[])`. -/
def nodeTuple : XlaNode :=
  XlaNode.ofXlaShape torchHashLib opAdd []
    (.tuple [.array 11 [2, 2] [false, false], .array 11 [] []]) 2 0

/-- The array shape `f32[2,2]` of the examples (element type 11). -/
def shapeF32 : XlaShape := .array 11 [2, 2] [false, false]

/-- A scalar shape different from `shapeF32`. -/
def shapeScalar : XlaShape := .array 11 [] []

/-- A closure computing `shapeF32` that counts its invocations in the outside state. -/
def countingF32 : XlaShapeFn Nat := fun calls => (shapeF32, calls + 1)

/-- A closure computing `shapeScalar` that counts its invocations in the outside state. -/
def countingScalar : XlaShapeFn Nat := fun calls => (shapeScalar, calls + 1)

/-- A node `add(A, B)` declared with two outputs, no sharding assigned yet. -/
def nodeTwo : XlaNode :=
  XlaNode.ofXlaShape torchHashLib opAdd [some operandA, some operandB]
    (.tuple [.array 11 [2, 2] [false, false], .array 11 [] []]) 2 0

/-- A tiled sharding over a 2 by 4 device mesh. -/
def shardingTiled : OpSharding :=
  { type := 3,
    tile_shape := { element_type := 11, dimensions := [2, 2],
                    is_dynamic_dimension := [false, false], layout := [1, 0] },
    tile_assignment_dimensions := [2, 4],
    tile_assignment_devices := [0, 1, 2, 3, 4, 5, 6, 7],
    replicate_on_last_tile_dim := false,
    last_tile_dims := [] }

/-- The sharding `shardingTiled` with another layout of the tile shape. -/
def shardingTiledRelaid : OpSharding :=
  { shardingTiled with
    tile_shape := { shardingTiled.tile_shape with layout := [0, 1] } }

/-- The sharding `shardingTiled` with dimensions moved by multiples of `2 ^ 32`. -/
def shardingTiledWide : OpSharding :=
  { shardingTiled with
    tile_assignment_dimensions := [2 + 2 ^ 32, 4 - 2 ^ 32],
    tile_shape := { shardingTiled.tile_shape with dimensions := [2 + 3 * 2 ^ 32, 2] } }

/-- A replicated sharding. -/
def shardingReplicated : OpSharding :=
  { type := 0,
    tile_shape := { element_type := 0, dimensions := [], is_dynamic_dimension := [],
                    layout := [] },
    tile_assignment_dimensions := [],
    tile_assignment_devices := [],
    replicate_on_last_tile_dim := false,
    last_tile_dims := [] }

/-- Printers for the examples: a fixed base description, and the kind of the shape. -/
def examplePrinters : Printers where
  nodeToString := fun _ => "add"
  shapeToString := fun s => if s.IsTuple then "(tuple)" else "array"

/-- The node `nodeTwo` after `SetSharding(shardingTiled, 1)`. -/
def nodeTwoSharded : XlaNode :=
  XlaNode.UpdateShardingHash torchHashLib
    { nodeTwo with output_shardings_ := [none, some shardingTiled] }

/-- A run of post-construction operations on the two-output node. -/
def exampleOps : List (NodeOp Nat) :=
  [.SetSharding shardingTiled 1, .SetCustomOpName "tiled", .GetOpShape countingF32,
   .xla_shape 5, .ReturnOp ⟨1⟩, .ReturnOps [⟨7⟩, ⟨8⟩], .ToString, .UpdateShardingHash]

/-- The machine the run `exampleOps` starts from. -/
def exampleStart : Machine Nat :=
  { node := nodeTwo, world := ⟨GetShapeCache 2, 0⟩, loctx := ⟨[]⟩ }

/-- The machine the run `exampleOps` ends in. -/
def exampleEnd : Machine Nat :=
  { node := XlaNode.UpdateShardingHash torchHashLib (nodeTwoSharded.SetCustomOpName "tiled"),
    world := ((nodeTwoSharded.SetCustomOpName "tiled").GetOpShape countingF32
      ⟨GetShapeCache 2, 0⟩).2,
    loctx := ((nodeTwoSharded.SetCustomOpName "tiled").ReturnOps [⟨7⟩, ⟨8⟩] ⟨[]⟩).2 }

/-! ## Theorems: node identity -/

theorem step_eq_combine (L : HashLib) (hash : hash_t) (operand : Value) :
    GetOperandHashes.step L hash operand = L.HashCombine hash (operandContribution L operand) := by
  cases operand <;> rfl

theorem loop_eq_foldl (L : HashLib) (operands : OpList) (hash : hash_t) :
    GetOperandHashes.loop L operands hash
      = (operands.map (operandContribution L)).foldl L.HashCombine hash := by
  induction operands generalizing hash with
  | nil => rfl
  | cons o rest ih =>
    simp only [GetOperandHashes.loop, List.map_cons, List.foldl_cons, ih, step_eq_combine]

theorem getOperandHashes_eq_spec (L : HashLib) (operands : OpList) (node_hash : hash_t) :
    GetOperandHashes L operands node_hash = specDagHash L node_hash operands :=
  loop_eq_foldl L operands node_hash

theorem construct_node_hash {σ : Type} (L : HashLib)
    (computeShape : hash_t → ShapeFn σ → ShapeFn σ) (op : OpKind) (operands : OpList)
    (args : ShapeArgs σ) (num_outputs : Nat) (hash_seed : hash_t) (w : World σ) :
    (XlaNode.construct L computeShape op operands args num_outputs hash_seed w).1.node_hash_
      = L.HashCombine (L.opHash op) hash_seed := by
  cases args <;> rfl

theorem construct_dag_hash {σ : Type} (L : HashLib)
    (computeShape : hash_t → ShapeFn σ → ShapeFn σ) (op : OpKind) (operands : OpList)
    (args : ShapeArgs σ) (num_outputs : Nat) (hash_seed : hash_t) (w : World σ) :
    (XlaNode.construct L computeShape op operands args num_outputs hash_seed w).1.dag_hash_
      = GetOperandHashes L operands (L.HashCombine (L.opHash op) hash_seed) := by
  cases args <;> rfl

/-- C1. For a node built by any operand-taking constructor, `dag_hash` is the left fold of
`HashCombine` over the operands in list order starting from `node_hash`, a present operand
contributing its hash and an absent one the `kNullOpt` sentinel; with no operands
`dag_hash = node_hash`. -/
theorem dag_hash_is_operand_fold {σ : Type} (L : HashLib)
    (computeShape : hash_t → ShapeFn σ → ShapeFn σ) (op : OpKind) (operands : OpList)
    (args : ShapeArgs σ) (num_outputs : Nat) (hash_seed : hash_t) (w : World σ) :
    (XlaNode.construct L computeShape op operands args num_outputs hash_seed w).1.dag_hash_
      = operands.foldl
          (fun h o => match o with
            | some r => L.HashCombine h r.hash
            | none => L.HashCombine h (toUInt64 L.kNullOpt))
          (XlaNode.construct L computeShape op operands args num_outputs hash_seed w).1.node_hash_
    ∧ (XlaNode.construct L computeShape op [] args num_outputs hash_seed w).1.dag_hash_
      = (XlaNode.construct L computeShape op [] args num_outputs hash_seed w).1.node_hash_ := by
  refine ⟨?_, ?_⟩
  · rw [construct_dag_hash, construct_node_hash]
    generalize L.HashCombine (L.opHash op) hash_seed = h0
    show GetOperandHashes.loop L operands h0 = _
    induction operands generalizing h0 with
    | nil => rfl
    | cons o rest ih =>
      cases o <;> exact ih _
  · rw [construct_dag_hash, construct_node_hash]
    rfl

theorem contribution_factors (L : HashLib) (operands : OpList) :
    operands.map (operandContribution L)
      = (operands.map (Option.map NodeRef.hash)).map
          (fun o => match o with
            | some h => h
            | none => toUInt64 L.kNullOpt) := by
  induction operands with
  | nil => rfl
  | cons o rest ih =>
    cases o <;> simp [operandContribution, ih]

/-- C2. Two nodes built by operand-taking constructors (any of the overloads, each with its
own shapes, shape functions, output count and cache contents) from the same operation, the
same seed and operand lists with the same sequence of operand hashes, null operands at the
same positions, have the same `dag_hash`. -/
theorem dag_hash_determined_by_op_hashes_seed {σ τ : Type} (L : HashLib)
    (computeShape₁ : hash_t → ShapeFn σ → ShapeFn σ)
    (computeShape₂ : hash_t → ShapeFn τ → ShapeFn τ)
    (op : OpKind) (operands₁ operands₂ : OpList) (args₁ : ShapeArgs σ) (args₂ : ShapeArgs τ)
    (num_outputs₁ num_outputs₂ : Nat) (hash_seed : hash_t) (w₁ : World σ) (w₂ : World τ)
    (hops : operands₁.map (Option.map NodeRef.hash) = operands₂.map (Option.map NodeRef.hash)) :
    (XlaNode.construct L computeShape₁ op operands₁ args₁ num_outputs₁ hash_seed w₁).1.dag_hash_
      = (XlaNode.construct L computeShape₂ op operands₂ args₂ num_outputs₂ hash_seed
          w₂).1.dag_hash_ := by
  rw [construct_dag_hash, construct_dag_hash]
  show GetOperandHashes.loop L operands₁ _ = GetOperandHashes.loop L operands₂ _
  rw [loop_eq_foldl, loop_eq_foldl, contribution_factors L operands₁,
    contribution_factors L operands₂, hops]

/-- C2 at a concrete input: `add` over two operand lists that name different nodes with the
same hashes and an absent operand in the same place, one node built eagerly with one output
and the other through a shape function with two outputs. -/
theorem dag_hash_determined_by_op_hashes_seed_witness :
    ([some operandA, none] : OpList).map (Option.map NodeRef.hash)
        = ([some ⟨9, 3, 5⟩, none] : OpList).map (Option.map NodeRef.hash)
    ∧ (XlaNode.construct torchHashLib (computeAlways : hash_t → ShapeFn Nat → ShapeFn Nat)
          opAdd [some operandA, none] (.shapes [⟨some 6, [2, 2]⟩] shapeF32) 1 0
          ⟨GetShapeCache 12288, 0⟩).1.dag_hash_
        = (XlaNode.construct torchHashLib (computeAlways : hash_t → ShapeFn Nat → ShapeFn Nat)
          opAdd [some ⟨9, 3, 5⟩, none] (.xlaShapeFn countingScalar) 2 0
          ⟨GetShapeCache 0, 7⟩).1.dag_hash_ :=
  ⟨rfl,
    dag_hash_determined_by_op_hashes_seed torchHashLib computeAlways computeAlways opAdd
      [some operandA, none] [some ⟨9, 3, 5⟩, none] (.shapes [⟨some 6, [2, 2]⟩] shapeF32)
      (.xlaShapeFn countingScalar) 1 2 0 ⟨GetShapeCache 12288, 0⟩ ⟨GetShapeCache 0, 7⟩ rfl⟩

/-- C5. The eager-shape operand-taking constructors set
`node_hash = HashCombine(op.hash(), hash_seed)`; the value is the same whatever the logical
shapes, the physical shape, the output count and the operands are. -/
theorem node_hash_eager_constructors (L : HashLib) (op : OpKind) (hash_seed : hash_t)
    (operands operands₂ : OpList) (shapes shapes₂ : List Shape) (shape shape₂ : Shape)
    (xla_shape xla_shape₂ : XlaShape) (num_outputs num_outputs₂ : Nat) :
    (XlaNode.ofShapes L op operands shapes xla_shape num_outputs hash_seed).node_hash_
        = L.HashCombine (L.opHash op) hash_seed
    ∧ (XlaNode.ofShape L op operands shape xla_shape num_outputs hash_seed).node_hash_
        = L.HashCombine (L.opHash op) hash_seed
    ∧ (XlaNode.ofXlaShape L op operands xla_shape num_outputs hash_seed).node_hash_
        = L.HashCombine (L.opHash op) hash_seed
    ∧ (XlaNode.ofShapes L op operands shapes xla_shape num_outputs hash_seed).node_hash_
        = (XlaNode.ofShapes L op operands₂ shapes₂ xla_shape₂ num_outputs₂ hash_seed).node_hash_
    ∧ (XlaNode.ofShape L op operands shape xla_shape num_outputs hash_seed).node_hash_
        = (XlaNode.ofShape L op operands₂ shape₂ xla_shape₂ num_outputs₂ hash_seed).node_hash_
    ∧ (XlaNode.ofXlaShape L op operands xla_shape num_outputs hash_seed).node_hash_
        = (XlaNode.ofXlaShape L op operands₂ xla_shape₂ num_outputs₂ hash_seed).node_hash_ :=
  ⟨rfl, rfl, rfl, rfl, rfl, rfl⟩

/-- C6. The constructors taking a shape-computing function give the same `node_hash` and
`dag_hash` as the eager constructor called with the same operation, operands and seed,
whatever the functions return and whatever the cache holds; and the shape resolution they
perform runs on a node that already carries those two hashes: the logical shape is resolved
under that `dag_hash`, and the physical shape and the resulting cache are those of
`GetOpShape` called on the already-hashed node. -/
theorem lazy_constructors_hash_like_eager {σ : Type} (L : HashLib)
    (computeShape : hash_t → ShapeFn σ → ShapeFn σ) (op : OpKind) (operands : OpList)
    (shapes shapes₀ : List Shape) (xla_shape₀ : XlaShape) (shape_fn : ShapeFn σ)
    (xla_shape_fn : XlaShapeFn σ) (num_outputs num_outputs₀ : Nat) (hash_seed : hash_t)
    (w : World σ) :
    let eager := XlaNode.ofShapes L op operands shapes₀ xla_shape₀ num_outputs₀ hash_seed
    let n₂ := XlaNode.ofShapesFn L op operands shapes xla_shape_fn num_outputs hash_seed w
    let n₅ := XlaNode.ofShapeFnXlaShapeFn L computeShape op operands shape_fn xla_shape_fn
      num_outputs hash_seed w
    let n₆ := XlaNode.ofXlaShapeFn L op operands xla_shape_fn num_outputs hash_seed w
    let staged := XlaNode.ofShapes L op operands shapes XlaShape.empty num_outputs hash_seed
    let staged₀ := XlaNode.ofShapes L op operands [] XlaShape.empty num_outputs hash_seed
    let logical := computeShape eager.dag_hash_ shape_fn w.env
    let attached : XlaNode := { staged₀ with shapes := [logical.1] }
    (n₂.1.node_hash_ = eager.node_hash_ ∧ n₂.1.dag_hash_ = eager.dag_hash_)
    ∧ (n₅.1.node_hash_ = eager.node_hash_ ∧ n₅.1.dag_hash_ = eager.dag_hash_)
    ∧ (n₆.1.node_hash_ = eager.node_hash_ ∧ n₆.1.dag_hash_ = eager.dag_hash_)
    ∧ (staged.node_hash_ = eager.node_hash_ ∧ staged.dag_hash_ = eager.dag_hash_
        ∧ n₂.1.xla_shape_ = (staged.GetOpShape xla_shape_fn w).1
        ∧ n₂.2 = (staged.GetOpShape xla_shape_fn w).2)
    ∧ (attached.node_hash_ = eager.node_hash_ ∧ attached.dag_hash_ = eager.dag_hash_
        ∧ n₅.1.shapes = [logical.1]
        ∧ n₅.1.xla_shape_
            = (attached.GetOpShape xla_shape_fn { w with env := logical.2 }).1
        ∧ n₅.2 = (attached.GetOpShape xla_shape_fn { w with env := logical.2 }).2)
    ∧ (staged₀.node_hash_ = eager.node_hash_ ∧ staged₀.dag_hash_ = eager.dag_hash_
        ∧ n₆.1.xla_shape_ = (staged₀.GetOpShape xla_shape_fn w).1
        ∧ n₆.2 = (staged₀.GetOpShape xla_shape_fn w).2) := by
  intro eager n₂ n₅ n₆ staged staged₀ logical attached
  exact ⟨⟨rfl, rfl⟩, ⟨rfl, rfl⟩, ⟨rfl, rfl⟩, ⟨rfl, rfl, rfl, rfl⟩, ⟨rfl, rfl, rfl, rfl, rfl⟩,
    ⟨rfl, rfl, rfl, rfl⟩⟩

/-- C7. The operand-less constructors set
`node_hash = HashCombine(HashCombine(op.hash(), Hash(S.ToString())), seed)` and
`dag_hash = node_hash`: the physical shape enters the hash through its string form and only
through it, whereas an operand-taking constructor given the same operation and seed (and no
operands) yields `HashCombine(op.hash(), seed)` for every shape. -/
theorem leaf_node_hash_includes_shape (L : HashLib) (toStr : XlaShape → String) (op : OpKind)
    (shape : Shape) (S S₂ : XlaShape) (num_outputs : Nat) (hash_seed : hash_t) :
    (XlaNode.leafOfShape L toStr op shape S num_outputs hash_seed).node_hash_
        = L.HashCombine (L.HashCombine (L.opHash op) (L.Hash (toStr S))) hash_seed
    ∧ (XlaNode.leafOfShape L toStr op shape S num_outputs hash_seed).dag_hash_
        = (XlaNode.leafOfShape L toStr op shape S num_outputs hash_seed).node_hash_
    ∧ (XlaNode.leafOfXlaShape L toStr op S num_outputs hash_seed).node_hash_
        = L.HashCombine (L.HashCombine (L.opHash op) (L.Hash (toStr S))) hash_seed
    ∧ (XlaNode.leafOfXlaShape L toStr op S num_outputs hash_seed).dag_hash_
        = (XlaNode.leafOfXlaShape L toStr op S num_outputs hash_seed).node_hash_
    ∧ (toStr S = toStr S₂ →
        (XlaNode.leafOfShape L toStr op shape S num_outputs hash_seed).node_hash_
          = (XlaNode.leafOfShape L toStr op shape S₂ num_outputs hash_seed).node_hash_)
    ∧ (XlaNode.ofXlaShape L op [] S num_outputs hash_seed).node_hash_
        = L.HashCombine (L.opHash op) hash_seed
    ∧ (XlaNode.ofXlaShape L op [] S num_outputs hash_seed).dag_hash_
        = (XlaNode.ofXlaShape L op [] S₂ num_outputs hash_seed).dag_hash_ := by
  refine ⟨rfl, rfl, rfl, rfl, ?_, rfl, rfl⟩
  intro h
  show L.HashCombine (L.HashCombine (L.opHash op) (L.Hash (toStr S))) hash_seed
    = L.HashCombine (L.HashCombine (L.opHash op) (L.Hash (toStr S₂))) hash_seed
  rw [h]

theorem loop_eq_or_collision (L : HashLib) (l₁ l₂ : OpList) (h₁ h₂ : hash_t)
    (hlen : l₁.length = l₂.length)
    (heq : GetOperandHashes.loop L l₁ h₁ = GetOperandHashes.loop L l₂ h₂) :
    (h₁ = h₂ ∧ l₁.map (operandContribution L) = l₂.map (operandContribution L))
    ∨ ∃ p ∈ (GetOperandHashes.trace L l₁ h₁).zip (GetOperandHashes.trace L l₂ h₂),
        collidesAt L p := by
  induction l₁ generalizing l₂ h₁ h₂ with
  | nil =>
    cases l₂ with
    | nil => exact Or.inl ⟨heq, rfl⟩
    | cons b l₂ => simp at hlen
  | cons a l₁ ih =>
    cases l₂ with
    | nil => simp at hlen
    | cons b l₂ =>
      have hlen2 : l₁.length = l₂.length := by simpa using hlen
      rcases ih l₂ _ _ hlen2 heq with ⟨hstep, hmap⟩ | ⟨p, hp, hc⟩
      · by_cases hpair :
          (h₁, operandContribution L a) = (h₂, operandContribution L b)
        · left
          have h1 : h₁ = h₂ := congrArg Prod.fst hpair
          have h2 : operandContribution L a = operandContribution L b :=
            congrArg Prod.snd hpair
          exact ⟨h1, by simp [List.map_cons, h2, hmap]⟩
        · right
          refine ⟨((h₁, operandContribution L a), (h₂, operandContribution L b)), ?_, ?_⟩
          · simp [GetOperandHashes.trace]
          · refine ⟨hpair, ?_⟩
            rw [step_eq_combine, step_eq_combine] at hstep
            exact hstep
      · right
        refine ⟨p, ?_, hc⟩
        simp only [GetOperandHashes.trace, List.zip_cons_cons]
        exact List.mem_cons_of_mem _ hp

theorem loop_congr_contribution (L : HashLib) (l₁ l₂ : OpList) (h : hash_t)
    (hmap : l₁.map (operandContribution L) = l₂.map (operandContribution L)) :
    GetOperandHashes.loop L l₁ h = GetOperandHashes.loop L l₂ h := by
  rw [loop_eq_foldl, loop_eq_foldl, hmap]

/-- C3, as amended. Permuting the operands of a node leaves `dag_hash` unchanged when every
position receives an operand contributing the hash that position held before; any other
permutation changes `dag_hash` unless `HashCombine` collides at some operand position of
the two folds, that is, sends two different (running hash, operand hash) pairs to the same
value. -/
theorem permuted_operands_dag_hash {σ : Type} (L : HashLib)
    (computeShape : hash_t → ShapeFn σ → ShapeFn σ) (op : OpKind)
    (operands permuted : OpList) (args : ShapeArgs σ) (num_outputs : Nat) (hash_seed : hash_t)
    (w : World σ) (hperm : permuted.Perm operands) :
    (permuted.map (operandContribution L) = operands.map (operandContribution L) →
      (XlaNode.construct L computeShape op permuted args num_outputs hash_seed w).1.dag_hash_
        = (XlaNode.construct L computeShape op operands args num_outputs hash_seed
            w).1.dag_hash_)
    ∧ (permuted.map (operandContribution L) ≠ operands.map (operandContribution L) →
      (XlaNode.construct L computeShape op permuted args num_outputs hash_seed w).1.dag_hash_
        = (XlaNode.construct L computeShape op operands args num_outputs hash_seed
            w).1.dag_hash_ →
      ∃ p ∈ (GetOperandHashes.trace L permuted (L.HashCombine (L.opHash op) hash_seed)).zip
              (GetOperandHashes.trace L operands (L.HashCombine (L.opHash op) hash_seed)),
        collidesAt L p) := by
  rw [construct_dag_hash, construct_dag_hash]
  refine ⟨fun hmap => loop_congr_contribution L _ _ _ hmap, fun hne heq => ?_⟩
  rcases loop_eq_or_collision L permuted operands _ _ hperm.length_eq heq with ⟨_, hmap⟩ | hc
  · exact absurd hmap hne
  · exact hc

/-- C3, the claim as stated fails: with the arithmetic of `torch::lazy::HashCombine`, the
node `add` with operands `[X, Y]` and the node with the two swapped have the same `dag_hash`
although `X` and `Y` have different hashes. -/
theorem swapped_operands_same_dag_hash :
    operandX.hash ≠ operandY.hash
    ∧ (XlaNode.ofXlaShape torchHashLib opAdd [some operandX, some operandY] XlaShape.empty 1
        zeroSeed).dag_hash_
      = (XlaNode.ofXlaShape torchHashLib opAdd [some operandY, some operandX] XlaShape.empty 1
        zeroSeed).dag_hash_ := by
  constructor
  · decide
  · decide

/-- C3, the amended statement at a concrete input: operands with hashes 5 and 7, swapped. -/
theorem permuted_operands_dag_hash_witness :
    [some operandB, some operandA].Perm [some operandA, some operandB]
    ∧ ((([some operandB, some operandA] : OpList).map (operandContribution torchHashLib)
          = ([some operandA, some operandB] : OpList).map (operandContribution torchHashLib) →
        (XlaNode.construct torchHashLib (computeAlways : hash_t → ShapeFn Unit → ShapeFn Unit)
            opAdd [some operandB, some operandA] (.xlaShape XlaShape.empty) 1 0
            ⟨GetShapeCache 12288, ()⟩).1.dag_hash_
          = (XlaNode.construct torchHashLib (computeAlways : hash_t → ShapeFn Unit → ShapeFn Unit)
            opAdd [some operandA, some operandB] (.xlaShape XlaShape.empty) 1 0
            ⟨GetShapeCache 12288, ()⟩).1.dag_hash_)
      ∧ (([some operandB, some operandA] : OpList).map (operandContribution torchHashLib)
          ≠ ([some operandA, some operandB] : OpList).map (operandContribution torchHashLib) →
        (XlaNode.construct torchHashLib (computeAlways : hash_t → ShapeFn Unit → ShapeFn Unit)
            opAdd [some operandB, some operandA] (.xlaShape XlaShape.empty) 1 0
            ⟨GetShapeCache 12288, ()⟩).1.dag_hash_
          = (XlaNode.construct torchHashLib (computeAlways : hash_t → ShapeFn Unit → ShapeFn Unit)
            opAdd [some operandA, some operandB] (.xlaShape XlaShape.empty) 1 0
            ⟨GetShapeCache 12288, ()⟩).1.dag_hash_ →
        ∃ p ∈ (GetOperandHashes.trace torchHashLib [some operandB, some operandA]
                (torchHashLib.HashCombine (torchHashLib.opHash opAdd) 0)).zip
              (GetOperandHashes.trace torchHashLib [some operandA, some operandB]
                (torchHashLib.HashCombine (torchHashLib.opHash opAdd) 0)),
          collidesAt torchHashLib p)) :=
  ⟨List.Perm.swap _ _ _,
    permuted_operands_dag_hash torchHashLib computeAlways opAdd
      [some operandA, some operandB] [some operandB, some operandA]
      (.xlaShape XlaShape.empty) 1 0 ⟨GetShapeCache 12288, ()⟩ (List.Perm.swap _ _ _)⟩

theorem map_set_none_eq (L : HashLib) (l : OpList) (i : Nat) (o : NodeRef)
    (hi : l[i]? = some (some o)) (hs : o.hash = toUInt64 L.kNullOpt) :
    (l.set i none).map (operandContribution L) = l.map (operandContribution L) := by
  induction l generalizing i with
  | nil => simp at hi
  | cons a l ih =>
    cases i with
    | zero =>
      simp only [List.getElem?_cons_zero, Option.some.injEq] at hi
      subst hi
      simp [operandContribution, hs]
    | succ j =>
      simp only [List.getElem?_cons_succ] at hi
      simp [List.set, ih j hi]

theorem map_set_none_ne (L : HashLib) (l : OpList) (i : Nat) (o : NodeRef)
    (hi : l[i]? = some (some o)) (hs : o.hash ≠ toUInt64 L.kNullOpt) :
    (l.set i none).map (operandContribution L) ≠ l.map (operandContribution L) := by
  induction l generalizing i with
  | nil => simp at hi
  | cons a l ih =>
    cases i with
    | zero =>
      simp only [List.getElem?_cons_zero, Option.some.injEq] at hi
      subst hi
      intro h
      simp only [List.set, List.map_cons, List.cons.injEq, operandContribution] at h
      exact hs h.1.symm
    | succ j =>
      simp only [List.getElem?_cons_succ] at hi
      intro h
      simp only [List.set, List.map_cons, List.cons.injEq] at h
      exact ih j hi h.2

/-- C4, as amended. Replacing the present operand at a position by an absent one leaves
`dag_hash` unchanged when that operand's hash equals the null-operand sentinel, and
otherwise changes `dag_hash` unless `HashCombine` collides at some operand position of the
two folds (two different (running hash, contributed hash) pairs with the same combined
value). -/
theorem absent_operand_dag_hash {σ : Type} (L : HashLib)
    (computeShape : hash_t → ShapeFn σ → ShapeFn σ) (op : OpKind) (operands : OpList)
    (args : ShapeArgs σ) (num_outputs : Nat) (hash_seed : hash_t) (w : World σ)
    (i : Nat) (o : NodeRef) (hi : operands[i]? = some (some o)) :
    (o.hash = toUInt64 L.kNullOpt →
      (XlaNode.construct L computeShape op (operands.set i none) args num_outputs hash_seed
          w).1.dag_hash_
        = (XlaNode.construct L computeShape op operands args num_outputs hash_seed
            w).1.dag_hash_)
    ∧ (o.hash ≠ toUInt64 L.kNullOpt →
      (XlaNode.construct L computeShape op (operands.set i none) args num_outputs hash_seed
          w).1.dag_hash_
        = (XlaNode.construct L computeShape op operands args num_outputs hash_seed
            w).1.dag_hash_ →
      ∃ p ∈ (GetOperandHashes.trace L (operands.set i none)
                (L.HashCombine (L.opHash op) hash_seed)).zip
              (GetOperandHashes.trace L operands (L.HashCombine (L.opHash op) hash_seed)),
        collidesAt L p) := by
  rw [construct_dag_hash, construct_dag_hash]
  refine ⟨fun hs => loop_congr_contribution L _ _ _ (map_set_none_eq L operands i o hi hs),
    fun hs heq => ?_⟩
  rcases loop_eq_or_collision L (operands.set i none) operands _ _ (by simp) heq
    with ⟨_, hmap⟩ | hc
  · exact absurd hmap (map_set_none_ne L operands i o hi hs)
  · exact hc

/-- C4, the claim as stated fails, in two ways.  The node `add` with operands `[A, N]`,
where the hash of `N` is the value of the `kNullOpt` sentinel, and the node with operands
`[A, absent]` have the same `dag_hash`.  And with the arithmetic of
`torch::lazy::HashCombine` the node `add` with operands `[P, Q]`, the hash of `P` not being
the sentinel, and the node with operands `[absent, Q]` have the same `dag_hash` too. -/
theorem absent_operand_same_dag_hash :
    (([some operandA, some operandN] : OpList)[1]? = some (some operandN)
      ∧ (XlaNode.ofXlaShape torchHashLib opAdd
          (([some operandA, some operandN] : OpList).set 1 none) XlaShape.empty 1 0).dag_hash_
        = (XlaNode.ofXlaShape torchHashLib opAdd [some operandA, some operandN] XlaShape.empty
            1 0).dag_hash_)
    ∧ (([some operandP, some operandQ] : OpList)[0]? = some (some operandP)
      ∧ operandP.hash ≠ toUInt64 torchHashLib.kNullOpt
      ∧ (XlaNode.ofXlaShape torchHashLib opAdd
          (([some operandP, some operandQ] : OpList).set 0 none) XlaShape.empty 1 0).dag_hash_
        = (XlaNode.ofXlaShape torchHashLib opAdd [some operandP, some operandQ] XlaShape.empty
            1 0).dag_hash_) := by
  refine ⟨⟨rfl, ?_⟩, rfl, ?_, ?_⟩
  · decide
  · decide
  · decide

/-- C4, the amended statement at a concrete input: `add(A, B)` with `B` made absent. -/
theorem absent_operand_dag_hash_witness :
    ([some operandA, some operandB] : OpList)[1]? = some (some operandB)
    ∧ ((operandB.hash = toUInt64 torchHashLib.kNullOpt →
        (XlaNode.construct torchHashLib (computeAlways : hash_t → ShapeFn Unit → ShapeFn Unit)
            opAdd (([some operandA, some operandB] : OpList).set 1 none)
            (.xlaShape XlaShape.empty) 1 0 ⟨GetShapeCache 12288, ()⟩).1.dag_hash_
          = (XlaNode.construct torchHashLib (computeAlways : hash_t → ShapeFn Unit → ShapeFn Unit)
            opAdd [some operandA, some operandB] (.xlaShape XlaShape.empty) 1 0
            ⟨GetShapeCache 12288, ()⟩).1.dag_hash_)
      ∧ (operandB.hash ≠ toUInt64 torchHashLib.kNullOpt →
        (XlaNode.construct torchHashLib (computeAlways : hash_t → ShapeFn Unit → ShapeFn Unit)
            opAdd (([some operandA, some operandB] : OpList).set 1 none)
            (.xlaShape XlaShape.empty) 1 0 ⟨GetShapeCache 12288, ()⟩).1.dag_hash_
          = (XlaNode.construct torchHashLib (computeAlways : hash_t → ShapeFn Unit → ShapeFn Unit)
            opAdd [some operandA, some operandB] (.xlaShape XlaShape.empty) 1 0
            ⟨GetShapeCache 12288, ()⟩).1.dag_hash_ →
        ∃ p ∈ (GetOperandHashes.trace torchHashLib
                (([some operandA, some operandB] : OpList).set 1 none)
                (torchHashLib.HashCombine (torchHashLib.opHash opAdd) 0)).zip
              (GetOperandHashes.trace torchHashLib [some operandA, some operandB]
                (torchHashLib.HashCombine (torchHashLib.opHash opAdd) 0)),
          collidesAt torchHashLib p)) :=
  ⟨rfl,
    absent_operand_dag_hash torchHashLib computeAlways opAdd [some operandA, some operandB]
      (.xlaShape XlaShape.empty) 1 0 ⟨GetShapeCache 12288, ()⟩ 1 operandB rfl⟩

theorem torchHashCombine_right_injective (a b b₂ : hash_t) (hb : b < 2 ^ 128)
    (hb₂ : b₂ < 2 ^ 128) (h : torchHashCombine a b = torchHashCombine a b₂) : b = b₂ := by
  unfold torchHashCombine at h
  have h1 := Nat.xor_right_injective h
  have h2 : Nat.ModEq (2 ^ 128) (b * (101 * 2 ^ 64 + 0x27d4eb2f165667c5))
      (b₂ * (101 * 2 ^ 64 + 0x27d4eb2f165667c5)) := by
    have h3 : Nat.ModEq (2 ^ 128)
        (b * (101 * 2 ^ 64 + 0x27d4eb2f165667c5)
          + (0x9e3779b97f4a7c15 + (a <<< 6) % 2 ^ 128 + (a >>> 2)))
        (b₂ * (101 * 2 ^ 64 + 0x27d4eb2f165667c5)
          + (0x9e3779b97f4a7c15 + (a <<< 6) % 2 ^ 128 + (a >>> 2))) := by
      unfold Nat.ModEq
      simpa [Nat.add_assoc] using h1
    exact Nat.ModEq.add_right_cancel' _ h3
  have hco : Nat.gcd (2 ^ 128) (101 * 2 ^ 64 + 0x27d4eb2f165667c5) = 1 := by decide
  have h4 := Nat.ModEq.cancel_right_of_coprime hco h2
  unfold Nat.ModEq at h4
  rwa [Nat.mod_eq_of_lt hb, Nat.mod_eq_of_lt hb₂] at h4

theorem loop_append_single (L : HashLib) (front : OpList) (o : Value) (h : hash_t) :
    GetOperandHashes.loop L (front ++ [o]) h
      = L.HashCombine (GetOperandHashes.loop L front h) (operandContribution L o) := by
  induction front generalizing h with
  | nil => exact step_eq_combine L h o
  | cons a rest ih => exact ih _

/-- X1. With the arithmetic of `torch::lazy::HashCombine` on 128-bit values, two operand
lists that differ only in what the last operand contributes (another hash, or the sentinel
of an absent operand) give different `dag_hash`: the last fold step is injective in the
contributed value. -/
theorem last_operand_changes_dag_hash (op : OpKind) (hash_seed : hash_t) (front : OpList)
    (o o₂ : Value) (xla_shape : XlaShape) (num_outputs : Nat)
    (hne : operandContribution torchHashLib o ≠ operandContribution torchHashLib o₂)
    (hlt : operandContribution torchHashLib o < 2 ^ 128)
    (hlt₂ : operandContribution torchHashLib o₂ < 2 ^ 128) :
    (XlaNode.ofXlaShape torchHashLib op (front ++ [o]) xla_shape num_outputs
        hash_seed).dag_hash_
      ≠ (XlaNode.ofXlaShape torchHashLib op (front ++ [o₂]) xla_shape num_outputs
        hash_seed).dag_hash_ := by
  intro h
  have h2 : GetOperandHashes.loop torchHashLib (front ++ [o])
        (torchHashLib.HashCombine (torchHashLib.opHash op) hash_seed)
      = GetOperandHashes.loop torchHashLib (front ++ [o₂])
        (torchHashLib.HashCombine (torchHashLib.opHash op) hash_seed) := h
  rw [loop_append_single, loop_append_single] at h2
  exact hne (torchHashCombine_right_injective _ _ _ hlt hlt₂ h2)

/-- X1 at a concrete input: `add(A, B)` against `add(A, absent)`. -/
theorem last_operand_changes_dag_hash_witness :
    (operandContribution torchHashLib (some operandB) ≠ operandContribution torchHashLib none
      ∧ operandContribution torchHashLib (some operandB) < 2 ^ 128
      ∧ operandContribution torchHashLib none < 2 ^ 128)
    ∧ (XlaNode.ofXlaShape torchHashLib opAdd ([some operandA] ++ [some operandB])
          XlaShape.empty 1 0).dag_hash_
        ≠ (XlaNode.ofXlaShape torchHashLib opAdd ([some operandA] ++ [none])
          XlaShape.empty 1 0).dag_hash_ :=
  ⟨⟨by decide, by decide, by decide⟩,
    last_operand_changes_dag_hash opAdd 0 [some operandA] (some operandB) none XlaShape.empty 1
      (by decide) (by decide) (by decide)⟩

/-! ## Theorems: the shape cache -/

theorem lookup_eraseKey_ne (l : List (hash_t × XlaShape)) (k h : hash_t) (hne : k ≠ h) :
    ShapeCache.lookup (ShapeCache.eraseKey l k) h = ShapeCache.lookup l h := by
  induction l with
  | nil => rfl
  | cons e l ih =>
    obtain ⟨k', v⟩ := e
    by_cases hk : k' = k
    · subst hk
      simp [ShapeCache.eraseKey, ShapeCache.lookup, hne]
    · by_cases hh : k' = h
      · subst hh
        simp [ShapeCache.eraseKey, ShapeCache.lookup, hk]
      · simp [ShapeCache.eraseKey, ShapeCache.lookup, hk, hh, ih]

theorem lookup_toFront (l : List (hash_t × XlaShape)) (k h : hash_t) (v : XlaShape)
    (hk : ShapeCache.lookup l k = some v) :
    ShapeCache.lookup ((k, v) :: ShapeCache.eraseKey l k) h = ShapeCache.lookup l h := by
  by_cases hkh : k = h
  · subst hkh
    simp [ShapeCache.lookup, hk]
  · simp [ShapeCache.lookup, hkh, lookup_eraseKey_ne l k h hkh]

theorem toFront_perm (l : List (hash_t × XlaShape)) (k : hash_t) (v : XlaShape)
    (hk : ShapeCache.lookup l k = some v) :
    ((k, v) :: ShapeCache.eraseKey l k).Perm l := by
  induction l with
  | nil => simp [ShapeCache.lookup] at hk
  | cons e l ih =>
    obtain ⟨k', v'⟩ := e
    by_cases hk' : k' = k
    · subst hk'
      simp only [ShapeCache.lookup, if_true, Option.some.injEq] at hk
      subst hk
      simp [ShapeCache.eraseKey]
    · simp only [ShapeCache.lookup, hk', if_false] at hk
      simp only [ShapeCache.eraseKey, hk', if_false]
      exact (List.Perm.swap _ _ _).trans (List.Perm.cons _ (ih hk))

theorem lookup_dropLast (l : List (hash_t × XlaShape)) (h : hash_t) (x : XlaShape)
    (hx : ShapeCache.lookup l.dropLast h = some x) : ShapeCache.lookup l h = some x := by
  induction l with
  | nil => simp [ShapeCache.lookup] at hx
  | cons e l ih =>
    obtain ⟨k, v⟩ := e
    cases l with
    | nil => simp [ShapeCache.lookup] at hx
    | cons e' l' =>
      simp only [List.dropLast_cons₂, ShapeCache.lookup] at hx ⊢
      by_cases hk : k = h
      · simpa [hk] using hx
      · simp only [hk, if_false] at hx ⊢
        exact ih hx

theorem GetOpShape_hit {σ : Type} (n : XlaNode) (f : XlaShapeFn σ) (w : World σ) (v : XlaShape)
    (hv : ShapeCache.lookup w.cache.element_list_ n.hash = some v) :
    n.GetOpShape f w
      = (v, { w with cache := { w.cache with
            element_list_ := (n.hash, v) :: ShapeCache.eraseKey w.cache.element_list_ n.hash } }) := by
  simp [XlaNode.GetOpShape, ShapeCache.Get, hv]

theorem GetOpShape_miss {σ : Type} (n : XlaNode) (f : XlaShapeFn σ) (w : World σ)
    (hv : ShapeCache.lookup w.cache.element_list_ n.hash = none) :
    n.GetOpShape f w
      = ((f w.env).1, { cache := (w.cache.Add n.hash (f w.env).1).2, env := (f w.env).2 }) := by
  simp [XlaNode.GetOpShape, ShapeCache.Get, hv, ShapeCache.Add]

theorem lookup_Add_self (c : ShapeCache) (k : hash_t) (obj : XlaShape)
    (hcap : 0 < c.max_size_) :
    ShapeCache.lookup (c.Add k obj).2.element_list_ k = some obj := by
  simp only [ShapeCache.Add]
  split
  · rename_i hlt
    cases hl : ShapeCache.eraseKey c.element_list_ k with
    | nil =>
      rw [hl] at hlt
      simp at hlt
      omega
    | cons e rest => simp [ShapeCache.lookup]
  · simp [ShapeCache.lookup]

theorem lookup_Add_of_lookup (c : ShapeCache) (k h : hash_t) (obj x : XlaShape)
    (hx : ShapeCache.lookup (c.Add k obj).2.element_list_ h = some x) :
    ShapeCache.lookup ((k, obj) :: ShapeCache.eraseKey c.element_list_ k) h = some x := by
  simp only [ShapeCache.Add] at hx
  split at hx
  · exact lookup_dropLast _ _ _ hx
  · exact hx

theorem GetOpShape_keeps {σ : Type} (n : XlaNode) (f : XlaShapeFn σ) (w : World σ)
    (h : hash_t) (S : XlaShape)
    (hS : ShapeCache.lookup w.cache.element_list_ h = some S)
    (hin : (n.GetOpShape f w).2.cache.contains h = true) :
    ShapeCache.lookup (n.GetOpShape f w).2.cache.element_list_ h = some S := by
  cases hv : ShapeCache.lookup w.cache.element_list_ n.hash with
  | none =>
    have hne : n.hash ≠ h := by
      intro e
      rw [e, hS] at hv
      cases hv
    rw [GetOpShape_miss n f w hv] at hin ⊢
    simp only [ShapeCache.contains, Option.isSome_iff_exists] at hin
    obtain ⟨x, hx⟩ := hin
    have hx' := lookup_Add_of_lookup _ _ _ _ _ hx
    simp only [ShapeCache.lookup, hne, if_false] at hx'
    rw [lookup_eraseKey_ne _ _ _ hne, hS] at hx'
    rw [hx, ← hx']
  | some v =>
    rw [GetOpShape_hit n f w v hv]
    simp only
    rw [lookup_toFront _ _ _ _ hv, hS]

theorem GetOpShape_stores {σ : Type} (n : XlaNode) (f : XlaShapeFn σ) (w : World σ)
    (hin : (n.GetOpShape f w).2.cache.contains n.hash = true) :
    ShapeCache.lookup (n.GetOpShape f w).2.cache.element_list_ n.hash
      = some (n.GetOpShape f w).1 := by
  cases hv : ShapeCache.lookup w.cache.element_list_ n.hash with
  | none =>
    rw [GetOpShape_miss n f w hv] at hin ⊢
    simp only [ShapeCache.contains, Option.isSome_iff_exists] at hin
    obtain ⟨x, hx⟩ := hin
    have hx' := lookup_Add_of_lookup _ _ _ _ _ hx
    simp only [ShapeCache.lookup, if_true, Option.some.injEq] at hx'
    rw [hx, hx']
  | some v =>
    rw [GetOpShape_hit n f w v hv]
    simp only
    rw [lookup_toFront _ _ _ _ hv, hv]

theorem keptDuring_contains {σ : Type} (key : hash_t) (calls : List (XlaNode × XlaShapeFn σ))
    (w : World σ) (hk : keptDuring key calls w = true) : w.cache.contains key = true := by
  cases calls with
  | nil => exact hk
  | cons c rest =>
    obtain ⟨n, f⟩ := c
    simp only [keptDuring, Bool.and_eq_true] at hk
    exact hk.1

theorem keptDuring_lookup {σ : Type} (key : hash_t) (S : XlaShape)
    (calls : List (XlaNode × XlaShapeFn σ)) (w : World σ)
    (hS : ShapeCache.lookup w.cache.element_list_ key = some S)
    (hk : keptDuring key calls w = true) :
    ShapeCache.lookup (resolveAll calls w).cache.element_list_ key = some S := by
  induction calls generalizing w with
  | nil => exact hS
  | cons c rest ih =>
    obtain ⟨n, f⟩ := c
    simp only [keptDuring, Bool.and_eq_true] at hk
    simp only [resolveAll]
    exact ih _ (GetOpShape_keeps n f w key S hS (keptDuring_contains key rest _ hk.2)) hk.2

/-- C8. Shape cache round trip: if `GetOpShape` under key `h` with closure `f` returned `S`,
then after any run of further resolutions during which `h` was never evicted, `GetOpShape`
under the same key with any closure `g` returns `S` and does not invoke `g` (the outside
state is untouched and the outcome is the same for every closure).  With room for at least
one entry the first call itself keeps `h`, so two consecutive resolutions of a key that was
absent invoke `f` once, never `g`, and both return the shape `f` computed. -/
theorem shape_cache_round_trip {σ : Type} (n m : XlaNode) (f g : XlaShapeFn σ) (w : World σ)
    (between : List (XlaNode × XlaShapeFn σ)) (hkey : m.hash = n.hash)
    (hkept : keptDuring n.hash between (n.GetOpShape f w).2 = true) :
    (m.GetOpShape g (resolveAll between (n.GetOpShape f w).2)).1 = (n.GetOpShape f w).1
    ∧ (m.GetOpShape g (resolveAll between (n.GetOpShape f w).2)).2.env
        = (resolveAll between (n.GetOpShape f w).2).env
    ∧ (∀ g₂ : XlaShapeFn σ,
        m.GetOpShape g₂ (resolveAll between (n.GetOpShape f w).2)
          = m.GetOpShape g (resolveAll between (n.GetOpShape f w).2))
    ∧ (0 < w.cache.max_size_ → (n.GetOpShape f w).2.cache.contains n.hash = true)
    ∧ (0 < w.cache.max_size_ → w.cache.contains n.hash = false →
        (n.GetOpShape f w).1 = (f w.env).1
        ∧ (m.GetOpShape g (n.GetOpShape f w).2).1 = (f w.env).1
        ∧ (m.GetOpShape g (n.GetOpShape f w).2).2.env = (f w.env).2) := by
  have hstored := GetOpShape_stores n f w (keptDuring_contains _ _ _ hkept)
  have hlast := keptDuring_lookup n.hash _ between _ hstored hkept
  rw [← hkey] at hlast
  have hcap : 0 < w.cache.max_size_ → (n.GetOpShape f w).2.cache.contains n.hash = true := by
    intro hpos
    cases hv : ShapeCache.lookup w.cache.element_list_ n.hash with
    | none =>
      rw [GetOpShape_miss n f w hv]
      simp only [ShapeCache.contains, lookup_Add_self _ _ _ hpos, Option.isSome_some]
    | some v =>
      rw [GetOpShape_hit n f w v hv]
      simp only [ShapeCache.contains]
      rw [lookup_toFront _ _ _ _ hv, hv]
      rfl
  refine ⟨?_, ?_, ?_, hcap, ?_⟩
  · rw [GetOpShape_hit m g _ _ hlast]
  · rw [GetOpShape_hit m g _ _ hlast]
  · intro g₂
    rw [GetOpShape_hit m g _ _ hlast, GetOpShape_hit m g₂ _ _ hlast]
  · intro hpos habsent
    have hnone : ShapeCache.lookup w.cache.element_list_ n.hash = none := by
      simpa [ShapeCache.contains] using habsent
    have hfirst := GetOpShape_miss n f w hnone
    have hst := GetOpShape_stores n f w (hcap hpos)
    rw [← hkey] at hst
    refine ⟨by rw [hfirst], ?_, ?_⟩
    · rw [GetOpShape_hit m g _ _ hst, hfirst]
    · rw [GetOpShape_hit m g _ _ hst, hfirst]

/-- C8 at a concrete input: a cache of capacity 2, the node `add(A, B)` resolved with a
counting closure, one resolution by another node in between, then the same key resolved
with a closure that would compute a different shape. -/
theorem shape_cache_round_trip_witness :
    (nodeAdd.hash = nodeAdd.hash
      ∧ keptDuring nodeAdd.hash [(nodeOther, countingScalar)]
          (nodeAdd.GetOpShape countingF32 ⟨GetShapeCache 2, 0⟩).2 = true)
    ∧ ((nodeAdd.GetOpShape countingScalar (resolveAll [(nodeOther, countingScalar)]
          (nodeAdd.GetOpShape countingF32 ⟨GetShapeCache 2, 0⟩).2)).1
        = (nodeAdd.GetOpShape countingF32 ⟨GetShapeCache 2, 0⟩).1
      ∧ (nodeAdd.GetOpShape countingScalar (resolveAll [(nodeOther, countingScalar)]
          (nodeAdd.GetOpShape countingF32 ⟨GetShapeCache 2, 0⟩).2)).2.env
        = (resolveAll [(nodeOther, countingScalar)]
            (nodeAdd.GetOpShape countingF32 ⟨GetShapeCache 2, 0⟩).2).env) :=
  ⟨⟨rfl, by decide⟩,
    (shape_cache_round_trip nodeAdd nodeAdd countingF32 countingScalar ⟨GetShapeCache 2, 0⟩
      [(nodeOther, countingScalar)] rfl (by decide)).1,
    (shape_cache_round_trip nodeAdd nodeAdd countingF32 countingScalar ⟨GetShapeCache 2, 0⟩
      [(nodeOther, countingScalar)] rfl (by decide)).2.1⟩

/-- C9. A single `GetOpShape` call is get-or-insert.  If the key is present it returns the
stored shape, the closure is not invoked (the outside state is untouched and the outcome is
the same for every closure) and the stored entries are unchanged: the same entries, every
key holding what it held, same capacity.  If the key is absent the closure is invoked
exactly once, its result is inserted under the key by the cache's `Add` and is exactly the
shape returned; with room for at least one entry the key then holds that shape. -/
theorem GetOpShape_get_or_insert {σ : Type} (n : XlaNode) (f : XlaShapeFn σ) (w : World σ) :
    (∀ S, ShapeCache.lookup w.cache.element_list_ n.hash = some S →
      (n.GetOpShape f w).1 = S
      ∧ (n.GetOpShape f w).2.env = w.env
      ∧ (∀ f₂ : XlaShapeFn σ, n.GetOpShape f₂ w = n.GetOpShape f w)
      ∧ (n.GetOpShape f w).2.cache.element_list_.Perm w.cache.element_list_
      ∧ (∀ k, ShapeCache.lookup (n.GetOpShape f w).2.cache.element_list_ k
            = ShapeCache.lookup w.cache.element_list_ k)
      ∧ (n.GetOpShape f w).2.cache.max_size_ = w.cache.max_size_)
    ∧ (ShapeCache.lookup w.cache.element_list_ n.hash = none →
      (n.GetOpShape f w).1 = (f w.env).1
      ∧ (n.GetOpShape f w).2.env = (f w.env).2
      ∧ (n.GetOpShape f w).2.cache = (w.cache.Add n.hash (f w.env).1).2
      ∧ (0 < w.cache.max_size_ →
          ShapeCache.lookup (n.GetOpShape f w).2.cache.element_list_ n.hash
            = some (f w.env).1)) := by
  constructor
  · intro S hS
    refine ⟨?_, ?_, ?_, ?_, ?_, ?_⟩
    · rw [GetOpShape_hit n f w S hS]
    · rw [GetOpShape_hit n f w S hS]
    · intro f₂
      rw [GetOpShape_hit n f w S hS, GetOpShape_hit n f₂ w S hS]
    · rw [GetOpShape_hit n f w S hS]
      exact toFront_perm _ _ _ hS
    · intro k
      rw [GetOpShape_hit n f w S hS]
      exact lookup_toFront _ _ _ _ hS
    · rw [GetOpShape_hit n f w S hS]
  · intro hnone
    refine ⟨?_, ?_, ?_, ?_⟩
    · rw [GetOpShape_miss n f w hnone]
    · rw [GetOpShape_miss n f w hnone]
    · rw [GetOpShape_miss n f w hnone]
    · intro hpos
      rw [GetOpShape_miss n f w hnone]
      exact lookup_Add_self _ _ _ hpos

/-- C9 at a concrete input: an empty cache of capacity 2 and a counting closure.  The miss
returns the computed `f32[2,2]` with the counter at 1 and stores it; the hit that follows
returns it with the counter still at 1. -/
theorem GetOpShape_get_or_insert_witness :
    ((nodeAdd.GetOpShape countingF32 ⟨GetShapeCache 2, 0⟩).1 = shapeF32
      ∧ (nodeAdd.GetOpShape countingF32 ⟨GetShapeCache 2, 0⟩).2.env = 1
      ∧ ShapeCache.lookup
          (nodeAdd.GetOpShape countingF32 ⟨GetShapeCache 2, 0⟩).2.cache.element_list_
          nodeAdd.hash = some shapeF32)
    ∧ ((nodeAdd.GetOpShape countingScalar
          (nodeAdd.GetOpShape countingF32 ⟨GetShapeCache 2, 0⟩).2).1 = shapeF32
      ∧ (nodeAdd.GetOpShape countingScalar
          (nodeAdd.GetOpShape countingF32 ⟨GetShapeCache 2, 0⟩).2).2.env = 1) :=
  ⟨⟨((GetOpShape_get_or_insert nodeAdd countingF32 ⟨GetShapeCache 2, 0⟩).2 rfl).1,
      ((GetOpShape_get_or_insert nodeAdd countingF32 ⟨GetShapeCache 2, 0⟩).2 rfl).2.1,
      ((GetOpShape_get_or_insert nodeAdd countingF32 ⟨GetShapeCache 2, 0⟩).2 rfl).2.2.2
        (by decide)⟩,
    ((GetOpShape_get_or_insert nodeAdd countingScalar
        (nodeAdd.GetOpShape countingF32 ⟨GetShapeCache 2, 0⟩).2).1 shapeF32 rfl).1,
    ((GetOpShape_get_or_insert nodeAdd countingScalar
        (nodeAdd.GetOpShape countingF32 ⟨GetShapeCache 2, 0⟩).2).1 shapeF32 rfl).2.1⟩

/-! ## Theorems: output shape lookup -/

/-- C10. `xla_shape(index)`: on a node whose physical shape is a tuple of `N` components it
returns the `i`-th component for every `i < N`; on a node whose physical shape is not a
tuple it returns the whole shape at index 0 and fails the `XLA_CHECK_EQ` (the fatal error)
at every other index. -/
theorem xla_shape_by_index (n : XlaNode) :
    (∀ (ts : List XlaShape), n.xla_shape_ = .tuple ts →
      ∀ (i : Nat) (hi : i < ts.length), n.xla_shape i = .ok (ts.get ⟨i, hi⟩))
    ∧ (n.xla_shape_.IsTuple = false →
      n.xla_shape 0 = .ok n.xla_shape_
      ∧ ∀ i : Nat, i ≠ 0 → n.xla_shape i = .error (.checkEq i 0)) := by
  constructor
  · intro ts hts i hi
    simp [XlaNode.xla_shape, hts, XlaShape.IsTuple, XlaShape.components,
      List.getElem?_eq_getElem hi]
  · intro hnt
    constructor
    · simp [XlaNode.xla_shape, hnt]
    · intro i hi
      simp [XlaNode.xla_shape, hnt, hi]

/-- C10 at concrete inputs: the tuple node `(f32[2,2], f32[])` at index 1, and the
non-tuple node `add(A, B)` at indices 0 and 3. -/
theorem xla_shape_by_index_witness :
    nodeTuple.xla_shape 1 = .ok shapeScalar
    ∧ nodeAdd.xla_shape 0 = .ok XlaShape.empty
    ∧ nodeAdd.xla_shape 3 = .error (.checkEq 3 0) :=
  ⟨(xla_shape_by_index nodeTuple).1 [shapeF32, shapeScalar] rfl 1 (by decide),
    ((xla_shape_by_index nodeAdd).2 rfl).1,
    ((xla_shape_by_index nodeAdd).2 rfl).2 3 (by decide)⟩

/-! ## Theorems: binding lowered values -/

theorem ReturnOps_loop_eq (n : XlaNode) (ops : List XlaOp) (i : Nat) (result : XlaOpVector)
    (loctx : LoweringContext) :
    XlaNode.ReturnOps.loop n ops i result loctx
      = (result ++ ops,
          ⟨loctx.emitted_outputs_ ++ (ops.enumFrom i).map (fun p => (⟨n, p.1⟩, p.2))⟩) := by
  induction ops generalizing i result loctx with
  | nil => simp [XlaNode.ReturnOps.loop]
  | cons op rest ih =>
    simp [XlaNode.ReturnOps.loop, ih, LoweringContext.AssignOutputOp, List.enumFrom]

/-- C11. `ReturnOps(values, target)` fails the `XLA_CHECK_EQ` exactly when the number of
values differs from the declared output count, and then leaves the lowering context as it
was; otherwise it registers `values[i]` against output `(this node, i)` for `i = 0, 1, ...`
in that order, after what was registered before, and returns the list `values` itself. -/
theorem ReturnOps_contract (n : XlaNode) (ops : List XlaOp) (loctx : LoweringContext) :
    ((∃ e, (n.ReturnOps ops loctx).1 = .error e) ↔ ops.length ≠ n.num_outputs)
    ∧ (ops.length ≠ n.num_outputs →
        n.ReturnOps ops loctx = (.error (.checkEq n.num_outputs ops.length), loctx))
    ∧ (ops.length = n.num_outputs →
        n.ReturnOps ops loctx
          = (.ok ops,
              ⟨loctx.emitted_outputs_ ++ ops.enum.map (fun p => (⟨n, p.1⟩, p.2))⟩)) := by
  have hbad : ops.length ≠ n.num_outputs →
      n.ReturnOps ops loctx = (.error (.checkEq n.num_outputs ops.length), loctx) := by
    intro h
    have h2 : ¬ n.num_outputs = ops.length := fun e => h e.symm
    simp [XlaNode.ReturnOps, h2]
  have hgood : ops.length = n.num_outputs →
      n.ReturnOps ops loctx
        = (.ok ops,
            ⟨loctx.emitted_outputs_ ++ ops.enum.map (fun p => (⟨n, p.1⟩, p.2))⟩) := by
    intro h
    simp [XlaNode.ReturnOps, h.symm, ReturnOps_loop_eq, List.enum]
  refine ⟨⟨?_, ?_⟩, hbad, hgood⟩
  · rintro ⟨e, he⟩ hlen
    rw [hgood hlen] at he
    cases he
  · intro h
    exact ⟨_, by rw [hbad h]⟩

/-- C11 at concrete inputs: two values bound on the two-output node, and one value refused
by it. -/
theorem ReturnOps_contract_witness :
    nodeTwo.ReturnOps [⟨7⟩, ⟨8⟩] ⟨[]⟩
        = (.ok [⟨7⟩, ⟨8⟩], ⟨[(⟨nodeTwo, 0⟩, ⟨7⟩), (⟨nodeTwo, 1⟩, ⟨8⟩)]⟩)
    ∧ nodeTwo.ReturnOps [⟨7⟩] ⟨[]⟩ = (.error (.checkEq 2 1), ⟨[]⟩) :=
  ⟨(ReturnOps_contract nodeTwo [⟨7⟩, ⟨8⟩] ⟨[]⟩).2.2 rfl,
    (ReturnOps_contract nodeTwo [⟨7⟩] ⟨[]⟩).2.1 (by decide)⟩

/-- C12. `ReturnOp(value, target)` fails the `XLA_CHECK_EQ` unless the node declares exactly
one output, leaving the lowering context as it was; when it does, it registers `value`
against output 0 of the node and returns `[value]`.  In both cases it behaves as
`ReturnOps([value], target)`. -/
theorem ReturnOp_contract (n : XlaNode) (op : XlaOp) (loctx : LoweringContext) :
    (n.num_outputs ≠ 1 → n.ReturnOp op loctx = (.error (.checkEq n.num_outputs 1), loctx))
    ∧ (n.num_outputs = 1 →
        n.ReturnOp op loctx = (.ok [op], ⟨loctx.emitted_outputs_ ++ [(⟨n, 0⟩, op)]⟩))
    ∧ n.ReturnOp op loctx = n.ReturnOps [op] loctx := by
  refine ⟨?_, ?_, ?_⟩
  · intro h
    simp [XlaNode.ReturnOp, h]
  · intro h
    simp [XlaNode.ReturnOp, h, LoweringContext.AssignOutputOp]
  · by_cases h : n.num_outputs = 1
    · simp [XlaNode.ReturnOp, XlaNode.ReturnOps, XlaNode.ReturnOps.loop, h]
    · simp [XlaNode.ReturnOp, XlaNode.ReturnOps, h]

/-- C12 at concrete inputs: the one-output node `add(A, B)` binds its value, the two-output
node refuses. -/
theorem ReturnOp_contract_witness :
    nodeAdd.ReturnOp ⟨7⟩ ⟨[]⟩ = (.ok [⟨7⟩], ⟨[(⟨nodeAdd, 0⟩, ⟨7⟩)]⟩)
    ∧ nodeTwo.ReturnOp ⟨7⟩ ⟨[]⟩ = (.error (.checkEq 2 1), ⟨[]⟩) :=
  ⟨(ReturnOp_contract nodeAdd ⟨7⟩ ⟨[]⟩).2.1 rfl,
    (ReturnOp_contract nodeTwo ⟨7⟩ ⟨[]⟩).1 (by decide)⟩

/-! ## Theorems: the unimplemented capabilities -/

/-- C13. On the base node type `Clone(operands)` and `Lower(target)` end in the fatal error
for every node and every argument, never in a value; the diagnostic is the fixed text
followed by the node's `ToString()`, and `Lower` leaves the lowering context as it was. -/
theorem Clone_Lower_always_fatal (P : Printers) (n : XlaNode) (operands : OpList)
    (loctx : LoweringContext) :
    n.Clone P operands
        = .error (.fatal ("Cloning not implemented for node: " ++ n.ToString P))
    ∧ n.Lower P loctx
        = (.error (.fatal ("Lowering not implemented for node: " ++ n.ToString P)), loctx)
    ∧ (∀ r, n.Clone P operands ≠ .ok r)
    ∧ (∀ r, (n.Lower P loctx).1 ≠ .ok r)
    ∧ n.ToString P
        = P.nodeToString n ++ ", xla_shape=" ++ P.shapeToString n.xla_shape_
          ++ ", dynamic_dims: ("
          ++ String.intercalate ", " (n.unbounded_dynamic_dims_.map toString) ++ ")" := by
  refine ⟨rfl, rfl, ?_, ?_, rfl⟩
  · intro r h
    simp [XlaNode.Clone] at h
  · intro r h
    simp [XlaNode.Lower] at h

/-- C13 at a concrete input: the node `add(A, B)` with the example printers. -/
theorem Clone_Lower_always_fatal_witness :
    nodeAdd.Clone examplePrinters [some operandA]
        = .error (.fatal
            "Cloning not implemented for node: add, xla_shape=array, dynamic_dims: ()")
    ∧ nodeAdd.Lower examplePrinters ⟨[]⟩
        = (.error (.fatal
            "Lowering not implemented for node: add, xla_shape=array, dynamic_dims: ()"),
            ⟨[]⟩) :=
  ⟨(Clone_Lower_always_fatal examplePrinters nodeAdd [some operandA] ⟨[]⟩).1,
    (Clone_Lower_always_fatal examplePrinters nodeAdd [some operandA] ⟨[]⟩).2.1⟩

/-! ## Theorems: sharding -/

theorem combineInts_eq_foldl (L : HashLib) (xs : List Int) (h : hash_t) :
    UpdateShardingHash.combineInts L xs h = (xs.map toUInt32).foldl L.HashCombine h := by
  induction xs generalizing h with
  | nil => rfl
  | cons x rest ih => simp [UpdateShardingHash.combineInts, ih]

theorem combineBools_eq_foldl (L : HashLib) (xs : List Bool) (h : hash_t) :
    UpdateShardingHash.combineBools L xs h = (xs.map boolToUInt32).foldl L.HashCombine h := by
  induction xs generalizing h with
  | nil => rfl
  | cons x rest ih => simp [UpdateShardingHash.combineBools, ih]

theorem sharding_eq_spec (L : HashLib) (sharding : OpSharding) (h : hash_t) :
    UpdateShardingHash.sharding L sharding h
      = (specShardingInputs sharding).foldl (HashInput.absorb L) h := by
  simp [UpdateShardingHash.sharding, specShardingInputs, combineInts_eq_foldl,
    combineBools_eq_foldl, List.foldl_append, List.foldl_map, HashInput.absorb]

theorem shardingLoop_eq_spec (L : HashLib) (slots : List (Option OpSharding)) (i : Nat)
    (h : hash_t) :
    UpdateShardingHash.loop L slots i h
      = ((slots.enumFrom i).flatMap (fun p => specSlotInputs p.1 p.2)).foldl
          (HashInput.absorb L) h := by
  induction slots generalizing i h with
  | nil => rfl
  | cons slot rest ih =>
    cases slot with
    | none =>
      simp [UpdateShardingHash.loop, ih, List.enumFrom, specSlotInputs, HashInput.absorb]
    | some sharding =>
      simp [UpdateShardingHash.loop, ih, List.enumFrom, specSlotInputs, HashInput.absorb,
        List.foldl_append, sharding_eq_spec]

theorem initialisedShardings_length (n : XlaNode) (hwf : n.shardingWF) :
    n.initialisedShardings.length = n.num_outputs := by
  unfold XlaNode.initialisedShardings
  split
  · simp
  · rename_i hne
    rcases hwf with h | h
    · simp [h] at hne
    · exact h

theorem SetSharding_ok (L : HashLib) (n : XlaNode) (sharding : OpSharding) (index : Nat)
    (hi : index < n.initialisedShardings.length) :
    n.SetSharding L sharding index
      = .ok (XlaNode.UpdateShardingHash L
          { n with output_shardings_ := n.initialisedShardings.set index (some sharding) }) := by
  unfold XlaNode.SetSharding
  unfold XlaNode.initialisedShardings at hi
  simp only [hi, if_true]
  rfl

theorem SetSharding_ok_inv (L : HashLib) (n n₁ : XlaNode) (sharding : OpSharding) (index : Nat)
    (h : n.SetSharding L sharding index = .ok n₁) :
    index < n.initialisedShardings.length
    ∧ n₁ = XlaNode.UpdateShardingHash L
        { n with output_shardings_ := n.initialisedShardings.set index (some sharding) } := by
  by_cases hi : index < n.initialisedShardings.length
  · rw [SetSharding_ok L n sharding index hi] at h
    exact ⟨hi, (Except.ok.inj h).symm⟩
  · exfalso
    unfold XlaNode.SetSharding at h
    unfold XlaNode.initialisedShardings at hi
    simp only [hi, if_false] at h
    cases h

/-- C16. After a `SetSharding` the vector is the initialised vector with the slot at the
index set, and `sharding_hash` is the fold recomputed from scratch: from `node_hash`, over
all slots in index order, the slot index first for every slot and, only for a slot holding
a sharding, its tile-assignment dimensions, the device list as one block, the last-tile-dim
flags, the type, the replicate flag, the tile shape's element type, dimensions and dynamic
flags, each as the 32-bit value the code combines.  The previous `sharding_hash` plays no
part: starting from any other value of it gives the same node. -/
theorem sharding_hash_recomputed_from_scratch (L : HashLib) (n n₁ : XlaNode)
    (sharding : OpSharding) (index : Nat)
    (hset : n.SetSharding L sharding index = .ok n₁) :
    n₁.output_shardings_ = n.initialisedShardings.set index (some sharding)
    ∧ n₁.node_hash_ = n.node_hash_
    ∧ n₁.sharding_hash_ = specShardingHash L n.node_hash_ n₁.output_shardings_
    ∧ (∀ previous : hash_t,
        XlaNode.SetSharding L { n with sharding_hash_ := previous } sharding index = .ok n₁)
    ∧ (n.UpdateShardingHash L).sharding_hash_
        = specShardingHash L n.node_hash_ n.output_shardings_ := by
  obtain ⟨hi, hn⟩ := SetSharding_ok_inv L n n₁ sharding index hset
  subst hn
  refine ⟨rfl, rfl, ?_, ?_, ?_⟩
  · exact shardingLoop_eq_spec L _ 0 _
  · intro previous
    exact SetSharding_ok L { n with sharding_hash_ := previous } sharding index hi
  · exact shardingLoop_eq_spec L _ 0 _

/-- C16 at a concrete input: the tiled sharding assigned to slot 1 of the two-output
node. -/
theorem sharding_hash_recomputed_from_scratch_witness :
    nodeTwo.SetSharding torchHashLib shardingTiled 1 = .ok nodeTwoSharded
    ∧ nodeTwoSharded.output_shardings_
        = nodeTwo.initialisedShardings.set 1 (some shardingTiled)
    ∧ nodeTwoSharded.sharding_hash_
        = specShardingHash torchHashLib nodeTwo.node_hash_ nodeTwoSharded.output_shardings_ :=
  ⟨rfl,
    (sharding_hash_recomputed_from_scratch torchHashLib nodeTwo nodeTwoSharded shardingTiled 1
      rfl).1,
    (sharding_hash_recomputed_from_scratch torchHashLib nodeTwo nodeTwoSharded shardingTiled 1
      rfl).2.2.1⟩

theorem SetSharding_after (L : HashLib) (n : XlaNode) (s t : OpSharding) (i j : Nat)
    (hj : j < n.initialisedShardings.length) :
    XlaNode.SetSharding L
        (XlaNode.UpdateShardingHash L
          { n with output_shardings_ := n.initialisedShardings.set i (some s) }) t j
      = .ok (XlaNode.UpdateShardingHash L
          { n with output_shardings_ :=
              (n.initialisedShardings.set i (some s)).set j (some t) }) := by
  have hinit : (XlaNode.UpdateShardingHash L
        { n with output_shardings_ := n.initialisedShardings.set i (some s) }).initialisedShardings
      = n.initialisedShardings.set i (some s) := by
    have hlen : ¬ (n.initialisedShardings.set i (some s)).length = 0 := by
      rw [List.length_set]
      omega
    simp only [XlaNode.initialisedShardings, XlaNode.UpdateShardingHash] at hlen ⊢
    rw [if_neg hlen]
  have hj2 : j < (XlaNode.UpdateShardingHash L
        { n with output_shardings_ :=
            n.initialisedShardings.set i (some s) }).initialisedShardings.length := by
    rw [hinit, List.length_set]
    exact hj
  rw [SetSharding_ok L _ t j hj2, hinit]
  rfl

theorem shardingLoop_set_congr (L : HashLib) (a b : OpSharding)
    (hab : ∀ h, UpdateShardingHash.sharding L a h = UpdateShardingHash.sharding L b h)
    (slots : List (Option OpSharding)) (i k : Nat) (h : hash_t) :
    UpdateShardingHash.loop L (slots.set i (some a)) k h
      = UpdateShardingHash.loop L (slots.set i (some b)) k h := by
  induction slots generalizing i k h with
  | nil => rfl
  | cons slot rest ih =>
    cases i with
    | zero => simp [List.set, UpdateShardingHash.loop, hab]
    | succ i =>
      cases slot with
      | none => simp [List.set, UpdateShardingHash.loop, ih]
      | some c => simp [List.set, UpdateShardingHash.loop, ih]

theorem SetSharding_hash_congr (L : HashLib) (n : XlaNode) (a b : OpSharding) (i : Nat)
    (hab : ∀ h, UpdateShardingHash.sharding L a h = UpdateShardingHash.sharding L b h) :
    (n.SetSharding L a i).map (fun m => m.sharding_hash_)
      = (n.SetSharding L b i).map (fun m => m.sharding_hash_) := by
  by_cases hi : i < n.initialisedShardings.length
  · rw [SetSharding_ok L n a i hi, SetSharding_ok L n b i hi]
    simp only [Except.map, XlaNode.UpdateShardingHash]
    rw [shardingLoop_set_congr L a b hab]
  · unfold XlaNode.SetSharding
    unfold XlaNode.initialisedShardings at hi
    simp only [hi, if_false]

/-- C14. Idempotence of sharding assignment: on a node whose sharding vector is in one of
its two regular states, `SetSharding(s, i)` with `i` below the output count succeeds, and
calling it a second time gives exactly the node the first call gave: the same per-slot
shardings and the same `sharding_hash`. -/
theorem SetSharding_idempotent (L : HashLib) (n : XlaNode) (s : OpSharding) (i : Nat)
    (hwf : n.shardingWF) (hi : i < n.num_outputs) :
    ∃ n₁, n.SetSharding L s i = .ok n₁
      ∧ n₁.SetSharding L s i = .ok n₁
      ∧ (∀ n₂, n₁.SetSharding L s i = .ok n₂ →
          n₂.sharding_hash_ = n₁.sharding_hash_
          ∧ n₂.output_shardings_ = n₁.output_shardings_) := by
  have hi2 : i < n.initialisedShardings.length := by
    rw [initialisedShardings_length n hwf]
    exact hi
  have h2 := SetSharding_after L n s s i i hi2
  rw [List.set_set] at h2
  refine ⟨_, SetSharding_ok L n s i hi2, h2, ?_⟩
  intro n₂ hn₂
  rw [h2] at hn₂
  cases hn₂
  exact ⟨rfl, rfl⟩

/-- C14 at a concrete input: the tiled sharding assigned twice to slot 1 of the two-output
node. -/
theorem SetSharding_idempotent_witness :
    (nodeTwo.shardingWF ∧ 1 < nodeTwo.num_outputs)
    ∧ ∃ n₁, nodeTwo.SetSharding torchHashLib shardingTiled 1 = .ok n₁
      ∧ n₁.SetSharding torchHashLib shardingTiled 1 = .ok n₁
      ∧ (∀ n₂, n₁.SetSharding torchHashLib shardingTiled 1 = .ok n₂ →
          n₂.sharding_hash_ = n₁.sharding_hash_
          ∧ n₂.output_shardings_ = n₁.output_shardings_) :=
  ⟨⟨Or.inl rfl, by decide⟩,
    SetSharding_idempotent torchHashLib nodeTwo shardingTiled 1 (Or.inl rfl) (by decide)⟩

/-- C15. The sharding hash ignores layout: for every node state and index, assigning a
sharding and assigning the sharding that differs from it only in the layout of its tile
shape end alike, with equal `sharding_hash` when the index is within the vector. -/
theorem sharding_hash_ignores_layout (L : HashLib) (n : XlaNode) (a : OpSharding)
    (layout : List Int) (i : Nat) :
    (n.SetSharding L a i).map (fun m => m.sharding_hash_)
        = (n.SetSharding L { a with tile_shape := { a.tile_shape with layout := layout } }
            i).map (fun m => m.sharding_hash_)
    ∧ (i < n.initialisedShardings.length →
        ∃ m₁ m₂, n.SetSharding L a i = .ok m₁
          ∧ n.SetSharding L { a with tile_shape := { a.tile_shape with layout := layout } } i
              = .ok m₂
          ∧ m₁.sharding_hash_ = m₂.sharding_hash_) := by
  have hcongr := SetSharding_hash_congr L n a
    { a with tile_shape := { a.tile_shape with layout := layout } } i (fun _ => rfl)
  refine ⟨hcongr, fun hi => ?_⟩
  rw [SetSharding_ok L n a i hi, SetSharding_ok L n _ i hi] at hcongr
  exact ⟨_, _, SetSharding_ok L n a i hi, SetSharding_ok L n _ i hi, Except.ok.inj hcongr⟩

/-- C15 at a concrete input: the tiled sharding with layouts `[1, 0]` and `[0, 1]`. -/
theorem sharding_hash_ignores_layout_witness :
    shardingTiled ≠ shardingTiledRelaid
    ∧ (nodeTwo.SetSharding torchHashLib shardingTiled 1).map (fun m => m.sharding_hash_)
        = (nodeTwo.SetSharding torchHashLib shardingTiledRelaid 1).map
            (fun m => m.sharding_hash_) :=
  ⟨by decide, (sharding_hash_ignores_layout torchHashLib nodeTwo shardingTiled [0, 1] 1).1⟩

theorem toUInt32_congr (x y : Int) (h : (2 ^ 32 : Int) ∣ x - y) : toUInt32 x = toUInt32 y := by
  unfold toUInt32
  have hmod : x % (2 ^ 32 : Int) = y % (2 ^ 32 : Int) :=
    Int.emod_eq_emod_iff_emod_sub_eq_zero.2 (Int.emod_eq_zero_of_dvd h)
  rw [hmod]

theorem map_toUInt32_congr (xs ys : List Int)
    (h : List.Forall₂ (fun x y : Int => (2 ^ 32 : Int) ∣ x - y) xs ys) :
    xs.map toUInt32 = ys.map toUInt32 := by
  induction h with
  | nil => rfl
  | cons hxy _ ih => simp [toUInt32_congr _ _ hxy, ih]

/-- C20. The sharding hash sees a dimension only through its low 32 bits: if two shardings
agree on the device list, the last-tile-dim flags, the type, the replicate flag and the
tile shape's element type and dynamic flags, and their tile-assignment dimensions and
tile-shape dimensions differ position by position by multiples of `2 ^ 32`, then assigning
either at the same index of the same node ends alike, with equal `sharding_hash`, whatever
`HashCombine` and `HashBlock` are. -/
theorem sharding_hash_low_32_bits (L : HashLib) (n : XlaNode) (a b : OpSharding) (i : Nat)
    (htad : List.Forall₂ (fun x y : Int => (2 ^ 32 : Int) ∣ x - y)
      a.tile_assignment_dimensions b.tile_assignment_dimensions)
    (hdim : List.Forall₂ (fun x y : Int => (2 ^ 32 : Int) ∣ x - y)
      a.tile_shape.dimensions b.tile_shape.dimensions)
    (hdev : a.tile_assignment_devices = b.tile_assignment_devices)
    (hlast : a.last_tile_dims = b.last_tile_dims)
    (htype : a.type = b.type)
    (hrep : a.replicate_on_last_tile_dim = b.replicate_on_last_tile_dim)
    (helem : a.tile_shape.element_type = b.tile_shape.element_type)
    (hdyn : a.tile_shape.is_dynamic_dimension = b.tile_shape.is_dynamic_dimension) :
    (n.SetSharding L a i).map (fun m => m.sharding_hash_)
        = (n.SetSharding L b i).map (fun m => m.sharding_hash_)
    ∧ (i < n.initialisedShardings.length →
        ∃ m₁ m₂, n.SetSharding L a i = .ok m₁ ∧ n.SetSharding L b i = .ok m₂
          ∧ m₁.sharding_hash_ = m₂.sharding_hash_) := by
  have hab : ∀ h, UpdateShardingHash.sharding L a h = UpdateShardingHash.sharding L b h := by
    intro h
    simp only [UpdateShardingHash.sharding, combineInts_eq_foldl,
      map_toUInt32_congr _ _ htad, map_toUInt32_congr _ _ hdim, hdev, hlast, htype, hrep,
      helem, hdyn]
  have hcongr := SetSharding_hash_congr L n a b i hab
  refine ⟨hcongr, fun hi => ?_⟩
  rw [SetSharding_ok L n a i hi, SetSharding_ok L n b i hi] at hcongr
  exact ⟨_, _, SetSharding_ok L n a i hi, SetSharding_ok L n b i hi, Except.ok.inj hcongr⟩

/-- C20 at a concrete input: tile-assignment dimensions `[2, 4]` against
`[2 + 2^32, 4 - 2^32]`, and tile-shape dimensions `[2, 2]` against `[2 + 3 * 2^32, 2]`. -/
theorem sharding_hash_low_32_bits_witness :
    (List.Forall₂ (fun x y : Int => (2 ^ 32 : Int) ∣ x - y)
        shardingTiled.tile_assignment_dimensions shardingTiledWide.tile_assignment_dimensions
      ∧ List.Forall₂ (fun x y : Int => (2 ^ 32 : Int) ∣ x - y)
        shardingTiled.tile_shape.dimensions shardingTiledWide.tile_shape.dimensions
      ∧ shardingTiled ≠ shardingTiledWide)
    ∧ (nodeTwo.SetSharding torchHashLib shardingTiled 1).map (fun m => m.sharding_hash_)
        = (nodeTwo.SetSharding torchHashLib shardingTiledWide 1).map
            (fun m => m.sharding_hash_) :=
  ⟨⟨List.Forall₂.cons ⟨-1, by decide⟩ (List.Forall₂.cons ⟨1, by decide⟩ List.Forall₂.nil),
      List.Forall₂.cons ⟨-3, by decide⟩ (List.Forall₂.cons ⟨0, by decide⟩ List.Forall₂.nil),
      by decide⟩,
    (sharding_hash_low_32_bits torchHashLib nodeTwo shardingTiled shardingTiledWide 1
      (List.Forall₂.cons ⟨-1, by decide⟩ (List.Forall₂.cons ⟨1, by decide⟩ List.Forall₂.nil))
      (List.Forall₂.cons ⟨-3, by decide⟩ (List.Forall₂.cons ⟨0, by decide⟩ List.Forall₂.nil))
      rfl rfl rfl rfl rfl rfl).1⟩

/-- C19. Sharding assignments to different output slots commute: on a node whose sharding
vector is in a regular state, for indices `i ≠ j` below the output count, assigning `a` at
`i` then `b` at `j` succeeds and gives the very node that assigning `b` at `j` then `a` at
`i` gives, hence the same per-slot shardings and the same `sharding_hash`; and assigning
`a` then `b` at the same index gives what assigning `b` alone gives. -/
theorem SetSharding_commutes (L : HashLib) (n : XlaNode) (a b : OpSharding) (i j : Nat)
    (hwf : n.shardingWF) (hi : i < n.num_outputs) (hj : j < n.num_outputs) (hij : i ≠ j) :
    (∃ m, XlaNode.SetShardings L [(a, i), (b, j)] n = .ok m
        ∧ XlaNode.SetShardings L [(b, j), (a, i)] n = .ok m)
    ∧ (∃ m, XlaNode.SetShardings L [(a, i), (b, i)] n = .ok m
        ∧ n.SetSharding L b i = .ok m) := by
  have hi2 : i < n.initialisedShardings.length := by
    rw [initialisedShardings_length n hwf]
    exact hi
  have hj2 : j < n.initialisedShardings.length := by
    rw [initialisedShardings_length n hwf]
    exact hj
  have h1 : XlaNode.SetShardings L [(a, i), (b, j)] n
      = .ok (XlaNode.UpdateShardingHash L
          { n with output_shardings_ :=
              (n.initialisedShardings.set i (some a)).set j (some b) }) := by
    simp only [XlaNode.SetShardings, SetSharding_ok L n a i hi2,
      SetSharding_after L n a b i j hj2]
  have h2 : XlaNode.SetShardings L [(b, j), (a, i)] n
      = .ok (XlaNode.UpdateShardingHash L
          { n with output_shardings_ :=
              (n.initialisedShardings.set i (some a)).set j (some b) }) := by
    simp only [XlaNode.SetShardings, SetSharding_ok L n b j hj2,
      SetSharding_after L n b a j i hi2]
    rw [List.set_comm (some b) (some a) n.initialisedShardings (Ne.symm hij)]
  have h3 : XlaNode.SetShardings L [(a, i), (b, i)] n
      = .ok (XlaNode.UpdateShardingHash L
          { n with output_shardings_ := n.initialisedShardings.set i (some b) }) := by
    simp only [XlaNode.SetShardings, SetSharding_ok L n a i hi2,
      SetSharding_after L n a b i i hi2, List.set_set]
  exact ⟨⟨_, h1, h2⟩, ⟨_, h3, SetSharding_ok L n b i hi2⟩⟩

/-- C19 at a concrete input: the tiled sharding at slot 0 and the replicated one at slot 1
of the two-output node, in both orders. -/
theorem SetSharding_commutes_witness :
    (nodeTwo.shardingWF ∧ 0 < nodeTwo.num_outputs ∧ 1 < nodeTwo.num_outputs ∧ (0 : Nat) ≠ 1)
    ∧ (∃ m, XlaNode.SetShardings torchHashLib [(shardingTiled, 0), (shardingReplicated, 1)]
          nodeTwo = .ok m
        ∧ XlaNode.SetShardings torchHashLib [(shardingReplicated, 1), (shardingTiled, 0)]
          nodeTwo = .ok m) :=
  ⟨⟨Or.inl rfl, by decide, by decide, by decide⟩,
    (SetSharding_commutes torchHashLib nodeTwo shardingTiled shardingReplicated 0 1
      (Or.inl rfl) (by decide) (by decide) (by decide)).1⟩

theorem sharding_initialised (n : XlaNode) (j : Nat) :
    (n.initialisedShardings[j]?).join = n.sharding j := by
  unfold XlaNode.initialisedShardings XlaNode.sharding
  split
  · rename_i h0
    have hnil : n.output_shardings_ = [] := List.length_eq_zero.1 h0
    rw [hnil, List.getElem?_replicate]
    split <;> rfl
  · rfl

theorem SetSharding_spec (L : HashLib) (n : XlaNode) (s : OpSharding) (i : Nat)
    (hwf : n.shardingWF) (hi : i < n.num_outputs) :
    ∃ m, n.SetSharding L s i = .ok m ∧ m.shardingWF ∧ m.num_outputs = n.num_outputs
      ∧ m.output_shardings_.length = n.num_outputs
      ∧ m.sharding i = some s ∧ (∀ j, j ≠ i → m.sharding j = n.sharding j) := by
  have hlen := initialisedShardings_length n hwf
  have hi2 : i < n.initialisedShardings.length := by
    rw [hlen]
    exact hi
  refine ⟨_, SetSharding_ok L n s i hi2, ?_, rfl, ?_, ?_, ?_⟩
  · right
    show (n.initialisedShardings.set i (some s)).length = n.num_outputs
    rw [List.length_set, hlen]
  · show (n.initialisedShardings.set i (some s)).length = n.num_outputs
    rw [List.length_set, hlen]
  · show ((n.initialisedShardings.set i (some s))[i]?).join = some s
    rw [List.getElem?_set_self hi2]
    rfl
  · intro j hj
    show ((n.initialisedShardings.set i (some s))[j]?).join = n.sharding j
    rw [List.getElem?_set_ne (Ne.symm hj), sharding_initialised]

theorem SetShardings_append (L : HashLib) (xs ys : List (OpSharding × Nat)) (n m : XlaNode)
    (h : XlaNode.SetShardings L xs n = .ok m) :
    XlaNode.SetShardings L (xs ++ ys) n = XlaNode.SetShardings L ys m := by
  induction xs generalizing n with
  | nil =>
    simp only [XlaNode.SetShardings] at h
    cases h
    rfl
  | cons x rest ih =>
    obtain ⟨s, i⟩ := x
    simp only [List.cons_append, XlaNode.SetShardings] at h ⊢
    cases hs : n.SetSharding L s i with
    | error e =>
      rw [hs] at h
      cases h
    | ok n₁ =>
      rw [hs] at h
      exact ih n₁ h

theorem SetShardings_spec (L : HashLib) (calls : List (OpSharding × Nat)) (n : XlaNode)
    (hwf : n.shardingWF) (hvalid : ∀ c ∈ calls, c.2 < n.num_outputs) :
    ∃ m, XlaNode.SetShardings L calls n = .ok m ∧ m.shardingWF
      ∧ m.num_outputs = n.num_outputs
      ∧ (n.output_shardings_.length ≠ 0 →
          m.output_shardings_.length = n.output_shardings_.length)
      ∧ (calls ≠ [] → m.output_shardings_.length = n.num_outputs)
      ∧ (∀ j, n.sharding j ≠ none → m.sharding j ≠ none)
      ∧ XlaNode.reinitCount L calls n ≤ 1
      ∧ (n.output_shardings_.length ≠ 0 → XlaNode.reinitCount L calls n = 0) := by
  induction calls generalizing n with
  | nil =>
    exact ⟨n, rfl, hwf, rfl, fun _ => rfl, fun h => absurd rfl h, fun _ h => h,
      Nat.zero_le _, fun _ => rfl⟩
  | cons c rest ih =>
    obtain ⟨s, i⟩ := c
    have hi : i < n.num_outputs := hvalid (s, i) (List.mem_cons_self _ _)
    obtain ⟨n₁, hset, hwf₁, hnum₁, hlen₁, hsi, hother⟩ := SetSharding_spec L n s i hwf hi
    have hvalid₁ : ∀ c ∈ rest, c.2 < n₁.num_outputs := by
      intro c hc
      rw [hnum₁]
      exact hvalid c (List.mem_cons_of_mem _ hc)
    obtain ⟨m, hrun, hwfm, hnum, hkeep, _, hnever, _, hzero⟩ := ih n₁ hwf₁ hvalid₁
    have hne₁ : n₁.output_shardings_.length ≠ 0 := by
      rw [hlen₁]
      omega
    have hlenm : m.output_shardings_.length = n.num_outputs := by
      rw [hkeep hne₁, hlen₁]
    refine ⟨m, ?_, hwfm, hnum.trans hnum₁, ?_, fun _ => hlenm, ?_, ?_, ?_⟩
    · simp only [XlaNode.SetShardings, hset]
      exact hrun
    · intro hne
      rcases hwf with h | h
      · rw [h] at hne
        exact absurd rfl hne
      · rw [hlenm, h]
    · intro j hj
      apply hnever
      by_cases hji : j = i
      · rw [hji, hsi]
        exact Option.some_ne_none _
      · rw [hother j hji]
        exact hj
    · simp only [XlaNode.reinitCount, hset, hzero hne₁]
      split <;> omega
    · intro hne
      simp only [XlaNode.reinitCount, hset, hzero hne₁, hne, if_false]

/-- C18. Sharding cannot be unset.  Take a node whose sharding vector is in a regular state
and any run of `SetSharding` calls with indices below the output count, split at any one of
its calls.  Every call succeeds; after that call, and at the end of the run, the vector has
one entry per output; the call sets the slot at its index and leaves every other slot as it
was; every slot that holds a sharding after the call still holds one at the end of the run;
and over the whole run the re-initialising branch is taken at most once, and never if the
vector was not empty at the start. -/
theorem sharding_never_unset (L : HashLib) (n : XlaNode) (pre post : List (OpSharding × Nat))
    (c : OpSharding × Nat) (hwf : n.shardingWF)
    (hvalid : ∀ x ∈ pre ++ c :: post, x.2 < n.num_outputs) :
    ∃ n₁ n₂ n₃, XlaNode.SetShardings L pre n = .ok n₁
      ∧ n₁.SetSharding L c.1 c.2 = .ok n₂
      ∧ XlaNode.SetShardings L post n₂ = .ok n₃
      ∧ XlaNode.SetShardings L (pre ++ c :: post) n = .ok n₃
      ∧ n₂.output_shardings_.length = n.num_outputs
      ∧ n₃.output_shardings_.length = n.num_outputs
      ∧ n₂.sharding c.2 = some c.1
      ∧ (∀ j, j ≠ c.2 → n₂.sharding j = n₁.sharding j)
      ∧ (∀ j, n₂.sharding j ≠ none → n₃.sharding j ≠ none)
      ∧ XlaNode.reinitCount L (pre ++ c :: post) n ≤ 1
      ∧ (n.output_shardings_ ≠ [] → XlaNode.reinitCount L (pre ++ c :: post) n = 0) := by
  have hpre : ∀ x ∈ pre, x.2 < n.num_outputs :=
    fun x hx => hvalid x (List.mem_append_left _ hx)
  have hc : c.2 < n.num_outputs :=
    hvalid c (List.mem_append_right _ (List.mem_cons_self _ _))
  have hpost : ∀ x ∈ post, x.2 < n.num_outputs :=
    fun x hx => hvalid x (List.mem_append_right _ (List.mem_cons_of_mem _ hx))
  obtain ⟨n₁, hrun₁, hwf₁, hnum₁, _, _, _, _, _⟩ := SetShardings_spec L pre n hwf hpre
  obtain ⟨n₂, hset, hwf₂, hnum₂, hlen₂, hsi, hother⟩ :=
    SetSharding_spec L n₁ c.1 c.2 hwf₁ (by rw [hnum₁]; exact hc)
  obtain ⟨n₃, hrun₃, _, _, hkeep, _, hnever, _, _⟩ :=
    SetShardings_spec L post n₂ hwf₂ (by
      intro x hx
      rw [hnum₂, hnum₁]
      exact hpost x hx)
  obtain ⟨_, _, _, _, _, _, _, hcount, hzero⟩ :=
    SetShardings_spec L (pre ++ c :: post) n hwf hvalid
  have hne₂ : n₂.output_shardings_.length ≠ 0 := by
    rw [hlen₂, hnum₁]
    omega
  refine ⟨n₁, n₂, n₃, hrun₁, hset, hrun₃, ?_, hlen₂.trans hnum₁, ?_, hsi, hother, hnever,
    hcount, ?_⟩
  · rw [SetShardings_append L pre (c :: post) n n₁ hrun₁]
    simp only [XlaNode.SetShardings, hset]
    exact hrun₃
  · rw [hkeep hne₂, hlen₂, hnum₁]
  · intro hne
    apply hzero
    intro h0
    exact hne (List.length_eq_zero.1 h0)

/-- C18 at a concrete input: on the two-output node, the tiled sharding at slot 1, then the
replicated one at slot 0, then the replicated one at slot 1. -/
theorem sharding_never_unset_witness :
    (nodeTwo.shardingWF
      ∧ ∀ x ∈ [(shardingTiled, 1)] ++ (shardingReplicated, 0) :: [(shardingReplicated, 1)],
          x.2 < nodeTwo.num_outputs)
    ∧ ∃ n₁ n₂ n₃, XlaNode.SetShardings torchHashLib [(shardingTiled, 1)] nodeTwo = .ok n₁
      ∧ n₁.SetSharding torchHashLib shardingReplicated 0 = .ok n₂
      ∧ XlaNode.SetShardings torchHashLib [(shardingReplicated, 1)] n₂ = .ok n₃
      ∧ XlaNode.SetShardings torchHashLib
          ([(shardingTiled, 1)] ++ (shardingReplicated, 0) :: [(shardingReplicated, 1)])
          nodeTwo = .ok n₃
      ∧ n₂.output_shardings_.length = nodeTwo.num_outputs
      ∧ n₃.output_shardings_.length = nodeTwo.num_outputs
      ∧ n₂.sharding 0 = some shardingReplicated
      ∧ (∀ j, j ≠ 0 → n₂.sharding j = n₁.sharding j)
      ∧ (∀ j, n₂.sharding j ≠ none → n₃.sharding j ≠ none)
      ∧ XlaNode.reinitCount torchHashLib
          ([(shardingTiled, 1)] ++ (shardingReplicated, 0) :: [(shardingReplicated, 1)])
          nodeTwo ≤ 1
      ∧ (nodeTwo.output_shardings_ ≠ [] →
          XlaNode.reinitCount torchHashLib
            ([(shardingTiled, 1)] ++ (shardingReplicated, 0) :: [(shardingReplicated, 1)])
            nodeTwo = 0) :=
  ⟨⟨Or.inl rfl, by decide⟩,
    sharding_never_unset torchHashLib nodeTwo [(shardingTiled, 1)] [(shardingReplicated, 1)]
      (shardingReplicated, 0) (Or.inl rfl) (by decide)⟩

/-! ## Theorems: the hashes are fixed at construction -/

theorem apply_keeps_hashes {σ : Type} (L : HashLib) (op : NodeOp σ) (m m₁ : Machine σ)
    (h : NodeOp.apply L op m = .ok m₁) :
    m₁.node.node_hash_ = m.node.node_hash_ ∧ m₁.node.dag_hash_ = m.node.dag_hash_ := by
  cases op with
  | SetSharding sharding index =>
    simp only [NodeOp.apply] at h
    cases hs : m.node.SetSharding L sharding index with
    | error e =>
      rw [hs] at h
      cases h
    | ok n₁ =>
      rw [hs] at h
      cases h
      obtain ⟨_, hn⟩ := SetSharding_ok_inv L m.node n₁ sharding index hs
      subst hn
      exact ⟨rfl, rfl⟩
  | UpdateShardingHash => cases h; exact ⟨rfl, rfl⟩
  | SetCustomOpName op_name => cases h; exact ⟨rfl, rfl⟩
  | GetOpShape shape_fn => cases h; exact ⟨rfl, rfl⟩
  | xla_shape output_index => cases h; exact ⟨rfl, rfl⟩
  | ReturnOp op => cases h; exact ⟨rfl, rfl⟩
  | ReturnOps ops => cases h; exact ⟨rfl, rfl⟩
  | ToString => cases h; exact ⟨rfl, rfl⟩

/-- C17. `node_hash` and `dag_hash` are never mutated after construction: after any run of
the post-construction operations of the file (`SetSharding`, `UpdateShardingHash`,
`SetCustomOpName`, `GetOpShape`, `xla_shape`, `ReturnOp`, `ReturnOps`, `ToString`), in any
order and with any arguments, both hashes have the values the node had at the start. -/
theorem hashes_never_mutated {σ : Type} (L : HashLib) (ops : List (NodeOp σ))
    (m m₁ : Machine σ) (h : NodeOp.run L ops m = .ok m₁) :
    m₁.node.node_hash_ = m.node.node_hash_ ∧ m₁.node.dag_hash_ = m.node.dag_hash_ := by
  induction ops generalizing m with
  | nil =>
    simp only [NodeOp.run] at h
    cases h
    exact ⟨rfl, rfl⟩
  | cons op rest ih =>
    simp only [NodeOp.run] at h
    cases ha : NodeOp.apply L op m with
    | error e =>
      rw [ha] at h
      cases h
    | ok m₂ =>
      rw [ha] at h
      obtain ⟨h1, h2⟩ := apply_keeps_hashes L op m m₂ ha
      obtain ⟨h3, h4⟩ := ih m₂ h
      exact ⟨h3.trans h1, h4.trans h2⟩

/-- C17 at a concrete input: all eight operations performed on the two-output node
`add(A, B)` as constructed; its hashes are still those the constructor computed. -/
theorem hashes_never_mutated_witness :
    NodeOp.run torchHashLib exampleOps exampleStart = .ok exampleEnd
    ∧ exampleEnd.node.node_hash_ = torchHashLib.HashCombine (torchHashLib.opHash opAdd) 0
    ∧ exampleEnd.node.dag_hash_
        = GetOperandHashes torchHashLib [some operandA, some operandB]
            (torchHashLib.HashCombine (torchHashLib.opHash opAdd) 0) :=
  ⟨rfl,
    (hashes_never_mutated torchHashLib exampleOps exampleStart exampleEnd rfl).1,
    (hashes_never_mutated torchHashLib exampleOps exampleStart exampleEnd rfl).2⟩

end TorchXla
